import Mathlib

/-!
# cocomu block editor: document / cursor engine

A shallow embedding of `src/public/render.js`, `src/public/editor.js` and
`src/public/utils.js`.

* JavaScript strings are `List Char` (`Str`).  The only index arithmetic the
  source performs on strings (`substring(1)`, `substring(2)`, `substring(3)`,
  `startsWith`) is on the ASCII markers, where characters and UTF-16 code
  units coincide.
* A block is a DOM element (`Element`): its class list, the attributes the
  source touches, and its child nodes (`Node`: text nodes and inline elements).
* `innerHTML` read is the HTML fragment serialisation (`innerHTML`); `innerHTML`
  write runs the browser's fragment parser, which is a parameter of the model
  (`Platform.parseHTML`).
* Geometry (bounding rectangles) is an oracle (`Layout`) over an ordered ring
  of pixel coordinates.  The measuring functions insert a `span` with
  `range.insertNode` and remove it again; the text node they split stays split
  and the selection follows the split, so they return the state they leave.
* `focus()` moves `document.activeElement` (`EditorState.focused`) and
  dispatches `focusout` on the block that had focus, which runs the
  container's `focusout` listener.  Callbacks scheduled with `setTimeout` are
  kept in `EditorState.deferred` and run by `runDeferred`.
-/

namespace Cocomu

/-! ## Strings -/

/-- A JavaScript string. -/
abbrev Str := List Char

/-- The zero-width space U+200B. -/
def zwsp : Char := Char.ofNat 0x200B

/-- ECMAScript `WhiteSpace` and `LineTerminator` code points, the characters
`String.prototype.trim` strips.  U+200B is not among them. -/
def isWhiteSpace (c : Char) : Bool :=
  let n := c.toNat
  n == 0x09 || n == 0x0A || n == 0x0B || n == 0x0C || n == 0x0D || n == 0x20 ||
  n == 0xA0 || n == 0x1680 || (0x2000 ≤ n && n ≤ 0x200A) || n == 0x2028 ||
  n == 0x2029 || n == 0x202F || n == 0x205F || n == 0x3000 || n == 0xFEFF

/-- `s.trim()`. -/
def trim (s : Str) : Str :=
  ((s.dropWhile isWhiteSpace).reverse.dropWhile isWhiteSpace).reverse

/-- `s.startsWith(p)`. -/
def startsWith (s p : Str) : Bool := p.isPrefixOf s

/-- `s.substring(n)`. -/
def substring (s : Str) (n : Nat) : Str := s.drop n

/-! ## DOM -/

/-- A node inside a block: a text node or an inline element with children. -/
inductive Node where
  | text (data : Str) : Node
  | elem (tag : String) (children : List Node) : Node
deriving Repr

/-- A block element (a `div` child of the editor container) with the parts of
its state the source reads or writes. -/
structure Element where
  /-- `classList`. -/
  classList : List String
  /-- The `contenteditable` attribute. -/
  contenteditable : Option String
  /-- `dataset.title` (`data-title`). -/
  dataTitle : Option Str
  /-- `dataset.heading2` (`data-heading2`). -/
  dataHeading2 : Option Str
  /-- `dataset.heading3` (`data-heading3`). -/
  dataHeading3 : Option Str
  /-- `dataset.latex` (`data-latex`). -/
  dataLatex : Option Str
  /-- `childNodes`. -/
  childNodes : List Node
deriving Repr

/-- `classList.contains(c)`. -/
def classContains (e : Element) (c : String) : Bool := e.classList.contains c

/-- `classList.add(c)`: a token list holds each token once. -/
def classAdd (cl : List String) (c : String) : List String :=
  if cl.contains c then cl else cl ++ [c]

/-- `classList.remove(c)`. -/
def classRemove (cl : List String) (c : String) : List String :=
  cl.filter (fun x => x != c)

mutual
/-- `node.textContent`. -/
def nodeText : Node → Str
  | .text s => s
  | .elem _ cs => nodesText cs
/-- Concatenated `textContent` of a node list. -/
def nodesText : List Node → Str
  | [] => []
  | c :: cs => nodeText c ++ nodesText cs
end

/-- `element.textContent`. -/
def textContent (e : Element) : Str := nodesText e.childNodes

/-- Escaping of a text node's data in the HTML fragment serialisation. -/
def escapeChar (c : Char) : Str :=
  if c = '&' then "&amp;".toList
  else if c = Char.ofNat 0xA0 then "&nbsp;".toList
  else if c = '<' then "&lt;".toList
  else if c = '>' then "&gt;".toList
  else [c]

/-- Escaped data of a text node. -/
def escapeText (s : Str) : Str := s.flatMap escapeChar

mutual
/-- HTML serialisation of one node (inline elements carry no attributes in
this model and are not void elements). -/
def serializeNode : Node → Str
  | .text s => escapeText s
  | .elem tag cs => "<".toList ++ tag.toList ++ ">".toList ++ serializeNodes cs ++
      "</".toList ++ tag.toList ++ ">".toList
/-- HTML serialisation of a node list. -/
def serializeNodes : List Node → Str
  | [] => []
  | c :: cs => serializeNode c ++ serializeNodes cs
end

/-- Reading `element.innerHTML`. -/
def innerHTML (e : Element) : Str := serializeNodes e.childNodes

/-- The browser services the source calls that are not code of the
repository. -/
structure Platform where
  /-- The HTML fragment parser run by an assignment to `innerHTML`. -/
  parseHTML : Str → List Node

/-- Assigning `element.innerHTML = markup`. -/
def setInnerHTML (P : Platform) (e : Element) (markup : Str) : Element :=
  { e with childNodes := P.parseHTML markup }

/-! ## render.js -/

/-- `renderEquation(editable, latex)`.  The asynchronous `MathJax.typesetPromise`
call is the external typesetting collaborator and is not part of the step. -/
def renderEquation (P : Platform) (editable : Element) (latex : Str) : Element :=
  let e1 := { editable with classList := classAdd editable.classList "equation" }
  let e2 := { e1 with contenteditable := some "false" }
  let e3 := { e2 with dataLatex := some latex }
  setInnerHTML P e3 ("\\[".toList ++ latex ++ "\\]".toList)

/-- `renderTitle(editable, title)`. -/
def renderTitle (P : Platform) (editable : Element) (title : Str) : Element :=
  let e1 := { editable with classList := classAdd editable.classList "heading1" }
  let e2 := { e1 with contenteditable := some "false" }
  let e3 := { e2 with dataTitle := some title }
  setInnerHTML P e3 ("<h1>".toList ++ title ++ "</h1>".toList)

/-- `renderHeading2(editable, heading)`. -/
def renderHeading2 (P : Platform) (editable : Element) (heading : Str) : Element :=
  let e1 := { editable with classList := classAdd editable.classList "heading2" }
  let e2 := { e1 with contenteditable := some "false" }
  let e3 := { e2 with dataHeading2 := some heading }
  setInnerHTML P e3 ("<h2>".toList ++ heading ++ "</h2>".toList)

/-- `renderHeading3(editable, heading)`. -/
def renderHeading3 (P : Platform) (editable : Element) (heading : Str) : Element :=
  let e1 := { editable with classList := classAdd editable.classList "heading3" }
  let e2 := { e1 with contenteditable := some "false" }
  let e3 := { e2 with dataHeading3 := some heading }
  setInnerHTML P e3 ("<h3>".toList ++ heading ++ "</h3>".toList)

/-- `handleFocusOut(editable)`. -/
def handleFocusOut (P : Platform) (editable : Element) : Element :=
  let content := trim (textContent editable)
  if startsWith content "/".toList then
    let latex := trim (substring content 1)
    if latex.length > 0 then renderEquation P editable latex else editable
  else if startsWith content "###".toList then
    let heading := trim (substring content 3)
    if heading.length > 0 then renderHeading3 P editable heading else editable
  else if startsWith content "##".toList then
    let heading := trim (substring content 2)
    if heading.length > 0 then renderHeading2 P editable heading else editable
  else if startsWith content "#".toList then
    let title := trim (substring content 1)
    if title.length > 0 then renderTitle P editable title else editable
  else editable

/-! ## Selection, ranges and the editor state -/

/-- A boundary point inside a block: the path of child indices from the block
element down to the container node (`[]` is the block element itself), and the
offset inside that node. -/
structure Point where
  path : List Nat
  offset : Nat
deriving Repr, DecidableEq

/-- A DOM boundary point as far as the editor can tell them apart. -/
inductive Boundary where
  /-- Inside block `block` of the editor container. -/
  | inBlock (block : Nat) (p : Point) : Boundary
  /-- At the editor container itself, before its child number `offset`. -/
  | inContainer (offset : Nat) : Boundary
  /-- Somewhere else in the page. -/
  | outside : Boundary
deriving Repr, DecidableEq

/-- A DOM range. -/
structure Range where
  start : Boundary
  stop : Boundary
deriving Repr, DecidableEq

/-- The element an operation refers to. -/
inductive NodeRef where
  /-- Child number `i` of the editor container. -/
  | block (i : Nat) : NodeRef
  /-- The editor container (`#editor-container`). -/
  | container : NodeRef
  /-- Element number `i` among the siblings that follow the container. -/
  | following (i : Nat) : NodeRef
deriving Repr, DecidableEq

/-- The `position` argument of `moveCursorToEditable` and
`setCursorClosestToX`. -/
inductive Edge where
  | first : Edge
  | last : Edge
deriving Repr, DecidableEq

/-- A caret placement scheduled with `setTimeout(..., 0)`
(`moveCursorToEditable(target, position)`); it runs after the handler. -/
structure Deferred where
  target : NodeRef
  position : Edge
deriving Repr, DecidableEq

/-- The page state the editor works on.  The children of the editor container
are the block elements, in document order. -/
structure EditorState (α : Type) where
  /-- `editorContainer.children`. -/
  blocks : List Element
  /-- The element siblings that follow the editor container in its parent. -/
  following : List Element
  /-- `window.getSelection()`: `none` when `rangeCount` is 0. -/
  selection : Option Range
  /-- The module variable `isComposing`. -/
  isComposing : Bool
  /-- The module variable `desiredX`. -/
  desiredX : α
  /-- Caret placements scheduled for the next tick, oldest first. -/
  deferred : List Deferred
  /-- `document.activeElement` when it is a block of the page (`none` for any
  other element). -/
  focused : Option NodeRef

/-- A keyboard event.  `target` is the index of the target among the
container's children; an index past the end stands for any other target. -/
structure KeyEvent where
  key : String
  ctrlKey : Bool
  metaKey : Bool
  target : Nat
deriving Repr, DecidableEq

/-- Live-range update when the children of block `i` are replaced
(assignment to `innerHTML`): boundary points inside the block move to
`(block, 0)`. -/
def Boundary.afterReplace (i : Nat) : Boundary → Boundary
  | .inBlock b p => if b = i then .inBlock b ⟨[], 0⟩ else .inBlock b p
  | b => b

/-- Live-range update when a node is inserted as child number `i` of the
container. -/
def Boundary.afterInsert (i : Nat) : Boundary → Boundary
  | .inBlock b p => if i ≤ b then .inBlock (b + 1) p else .inBlock b p
  | .inContainer k => if i < k then .inContainer (k + 1) else .inContainer k
  | .outside => .outside

/-- Live-range update when child number `i` of the container is removed. -/
def Boundary.afterRemove (i : Nat) : Boundary → Boundary
  | .inBlock b p =>
      if b = i then .inContainer i else if i < b then .inBlock (b - 1) p else .inBlock b p
  | .inContainer k => if i < k then .inContainer (k - 1) else .inContainer k
  | .outside => .outside

/-- A range with both boundary points updated. -/
def Range.map (f : Boundary → Boundary) (r : Range) : Range :=
  { start := f r.start, stop := f r.stop }

/-- The reference of an element after a node is inserted as child number `i`
of the container. -/
def NodeRef.afterInsert (i : Nat) : NodeRef → NodeRef
  | .block b => if i ≤ b then .block (b + 1) else .block b
  | r => r

/-- The reference of an element after a node is inserted as element number `i`
after the container. -/
def NodeRef.afterInsertFollowing (i : Nat) : NodeRef → NodeRef
  | .following b => if i ≤ b then .following (b + 1) else .following b
  | r => r

/-- The reference of an element after child number `i` of the container is
removed: `none` for the removed element itself. -/
def NodeRef.afterRemove (i : Nat) : NodeRef → Option NodeRef
  | .block b => if b = i then none else if i < b then some (.block (b - 1)) else some (.block b)
  | r => some r

/-! ## Range.cloneContents -/

/-- `cloneContents()` of the range from the start of an element with children
`cs` to the boundary point `(path, off)` below it: children before the point
are cloned whole, the child holding the point is cloned partially. -/
def cloneBefore : List Node → List Nat → Nat → List Node
  | cs, [], off => cs.take off
  | cs, i :: rest, off =>
      match cs[i]? with
      | some (.text s) => cs.take i ++ [.text (s.take off)]
      | some (.elem tag ks) => cs.take i ++ [.elem tag (cloneBefore ks rest off)]
      | none => cs

/-- `cloneContents()` of the range from the boundary point `(path, off)` to
the end of the element with children `cs`. -/
def cloneAfter : List Node → List Nat → Nat → List Node
  | cs, [], off => cs.drop off
  | cs, i :: rest, off =>
      match cs[i]? with
      | some (.text s) => .text (s.drop off) :: cs.drop (i + 1)
      | some (.elem tag ks) => .elem tag (cloneAfter ks rest off) :: cs.drop (i + 1)
      | none => []

/-- The boundary point `(path, off)` exists below an element with children
`cs`. -/
def validPoint : List Node → List Nat → Nat → Bool
  | cs, [], off => off ≤ cs.length
  | cs, i :: rest, off =>
      match cs[i]? with
      | some (.text s) => rest.isEmpty && off ≤ s.length
      | some (.elem _ ks) => validPoint ks rest off
      | none => false

/-- `fragmentToHTML(fragment)`: the fragment is appended to a fresh `div`
whose `innerHTML` is read. -/
def fragmentToHTML (fragment : List Node) : Str := serializeNodes fragment

/-! ## utils.js: block lookup and caret placement -/

/-- `findPreviousEditableDiv(currentDiv)` for child number `current` of the
container: the nearest earlier sibling with class `editable`. -/
def findPreviousEditableDiv (blocks : List Element) : Nat → Option Nat
  | 0 => none
  | k + 1 =>
      match blocks[k]? with
      | some e => if classContains e "editable" then some k
                  else findPreviousEditableDiv blocks k
      | none => findPreviousEditableDiv blocks k

/-- The loop of `findNextEditableDiv` over the siblings `rest`, the first of
which is child number `k`. -/
def findNextFrom : List Element → Nat → Option Nat
  | [], _ => none
  | e :: rest, k => if classContains e "editable" then some k else findNextFrom rest (k + 1)

/-- `findNextEditableDiv(currentDiv)` for child number `current`. -/
def findNextEditableDiv (blocks : List Element) (current : Nat) : Option Nat :=
  findNextFrom (blocks.drop (current + 1)) (current + 1)

/-- The boundary point `setCursorToStart(editable)` collapses the selection
to: `(editable.firstChild || editable, 0)`. -/
def setCursorToStart (editable : Element) : Point :=
  match editable.childNodes with
  | [] => ⟨[], 0⟩
  | _ :: _ => ⟨[0], 0⟩

/-- The boundary point `setCursorToEnd(editable)` collapses the selection to:
the end of the last child when it is a text node, else
`(editable, childNodes.length)`. -/
def setCursorToEnd (editable : Element) : Point :=
  match editable.childNodes.getLast? with
  | some (.text s) => ⟨[editable.childNodes.length - 1], s.length⟩
  | _ => ⟨[], editable.childNodes.length⟩

/-- A selection collapsed at point `p` of block `i`. -/
def collapsedAt (i : Nat) (p : Point) : Option Range :=
  some { start := .inBlock i p, stop := .inBlock i p }

/-! ## editor.js: the focusout listener -/

/-- Whether `handleFocusOut(editable)` reaches one of its render calls (and so
assigns `innerHTML`): the branch conditions of `handleFocusOut`. -/
def focusOutRenders (editable : Element) : Bool :=
  let content := trim (textContent editable)
  if startsWith content "/".toList then decide ((trim (substring content 1)).length > 0)
  else if startsWith content "###".toList then decide ((trim (substring content 3)).length > 0)
  else if startsWith content "##".toList then decide ((trim (substring content 2)).length > 0)
  else if startsWith content "#".toList then decide ((trim (substring content 1)).length > 0)
  else false

/-- `handleFocusOut(target)` on child number `i` of the container: the element
is rewritten and, when a render call assigned `innerHTML`, the boundary points
inside the block move to `(block, 0)`. -/
def focusOutBlock {α : Type} (P : Platform) (s : EditorState α) (i : Nat) : EditorState α :=
  match s.blocks[i]? with
  | none => s
  | some target =>
      if focusOutRenders target then
        { s with blocks := s.blocks.set i (handleFocusOut P target),
                 selection := s.selection.map (Range.map (Boundary.afterReplace i)) }
      else { s with blocks := s.blocks.set i (handleFocusOut P target) }

/-- The test of the `focusout` listener: whether it calls
`handleFocusOut(target)`. -/
def focusoutCallsHandler (target : Element) : Bool :=
  if classContains target "editable" && !classContains target "equation" &&
      !classContains target "heading1" && !classContains target "heading2" &&
      !classContains target "heading3" then true
  else if classContains target "heading1" || classContains target "heading2" ||
      classContains target "heading3" then true
  else false

/-- The `focusout` listener of the editor container, for a focus loss on child
number `target` (an index past the end stands for any other target). -/
def focusout {α : Type} (P : Platform) (s : EditorState α) (target : Nat) : EditorState α :=
  match s.blocks[target]? with
  | none => s
  | some t =>
      if classContains t "editable" && !classContains t "equation" &&
          !classContains t "heading1" && !classContains t "heading2" &&
          !classContains t "heading3" then focusOutBlock P s target
      else if classContains t "heading1" || classContains t "heading2" ||
          classContains t "heading3" then focusOutBlock P s target
      else s

/-! ## Focus -/

/-- The element a reference names. -/
def elementAt {α : Type} (s : EditorState α) : NodeRef → Option Element
  | .block i => s.blocks[i]?
  | .following i => s.following[i]?
  | .container => none

/-- Whether `focus()` can move focus to the element: a block is focusable when
it is an editing host (`contenteditable="true"`). -/
def isFocusable (e : Element) : Bool := decide (e.contenteditable = some "true")

/-- `element.focus()`.  When focus moves, `focusout` is dispatched on the
block that had it, and the `focusout` listener of the container runs if that
block is a child of the container.  (The caret the browser places on focus is
overwritten by the caret placement that follows `focus()` in every caller.) -/
def focusElement {α : Type} (P : Platform) (s : EditorState α) (target : NodeRef) :
    EditorState α :=
  match elementAt s target with
  | none => s
  | some e =>
      if isFocusable e then
        if s.focused = some target then s
        else
          let s1 := match s.focused with
            | some (.block k) => focusout P s k
            | _ => s
          { s1 with focused := some target }
      else s

/-! ## editor.js: block mutation -/

/-- The fresh `div` built by `createNewEditableDiv`. -/
def newEditableDiv (P : Platform) (content : Str) : Element :=
  let newDiv : Element :=
    { classList := classAdd [] "editable", contenteditable := none, dataTitle := none,
      dataHeading2 := none, dataHeading3 := none, dataLatex := none, childNodes := [] }
  let newDiv := { newDiv with contenteditable := some "true" }
  setInnerHTML P newDiv (if content.length > 0 then content else [zwsp])

/-- `createNewEditableDiv(referenceDiv, content)`: the new `div` is inserted
into `referenceDiv.parentNode` before `referenceDiv.nextSibling`.  Returns the
state and the reference of the new element. -/
def createNewEditableDiv {α : Type} (P : Platform) (s : EditorState α)
    (referenceDiv : NodeRef) (content : Str) : EditorState α × NodeRef :=
  let newDiv := newEditableDiv P content
  match referenceDiv with
  | .block i =>
      ({ s with blocks := s.blocks.take (i + 1) ++ newDiv :: s.blocks.drop (i + 1),
                selection := s.selection.map (Range.map (Boundary.afterInsert (i + 1))),
                focused := s.focused.map (NodeRef.afterInsert (i + 1)) },
       .block (i + 1))
  | .container =>
      ({ s with following := newDiv :: s.following,
                focused := s.focused.map (NodeRef.afterInsertFollowing 0) }, .following 0)
  | .following i =>
      ({ s with following := s.following.take (i + 1) ++ newDiv :: s.following.drop (i + 1),
                focused := s.focused.map (NodeRef.afterInsertFollowing (i + 1)) },
       .following (i + 1))

/-- `handleEnterKey(event, editable)` for child number `editable` of the
container.  The `Bool` is whether `event.preventDefault()` was called.
`none` only when `editable` is not a child of the container or the selection's
range starts outside `editable` (then `cloneContents` spans several blocks,
which this model does not cover).  The source also computes
`getCaretCharacterOffsetWithin(editable)` into `caretPos` and never reads it. -/
def handleEnterKey {α : Type} (P : Platform) (s : EditorState α) (event : KeyEvent)
    (editable : Nat) : Option (EditorState α × Bool) :=
  match s.blocks[editable]? with
  | none => none
  | some e =>
    if event.key = "Enter" then
      match s.selection with
      | none => some (s, true)
      | some range =>
        match range.start with
        | .inBlock b p =>
          if b = editable then
            let beforeFragment := cloneBefore e.childNodes p.path p.offset
            let beforeContent := fragmentToHTML beforeFragment
            let afterFragment := cloneAfter e.childNodes p.path p.offset
            let afterContent := fragmentToHTML afterFragment
            let s1 : EditorState α :=
              { s with blocks := s.blocks.set editable (setInnerHTML P e beforeContent),
                       selection := s.selection.map (Range.map (Boundary.afterReplace editable)) }
            let (s2, newEditable) := createNewEditableDiv P s1 (.block editable) afterContent
            some ({ s2 with deferred := s2.deferred ++ [⟨newEditable, .first⟩] }, true)
          else none
        | _ => none
    else some (s, false)

/-- `handleBackspaceKey(event, editable)` for child number `editable` of the
container.  The `Bool` is whether `event.preventDefault()` was called; `none`
only when `editable` is not a child of the container.  With no previous block
the replacement is created by `createNewEditableDiv(parent, '')`, whose
reference node is the container itself.  A removed block that had focus leaves
no block focused; no `focusout` reaches the container for it. -/
def handleBackspaceKey {α : Type} (P : Platform) (s : EditorState α) (event : KeyEvent)
    (editable : Nat) : Option (EditorState α × Bool) :=
  match s.blocks[editable]? with
  | none => none
  | some e =>
    if event.key = "Backspace" then
      let content := trim (innerHTML e)
      if content = [] ∨ content = [zwsp] then
        let previousDiv := findPreviousEditableDiv s.blocks editable
        let s1 : EditorState α :=
          { s with blocks := s.blocks.eraseIdx editable,
                   selection := s.selection.map (Range.map (Boundary.afterRemove editable)),
                   focused := s.focused.bind (NodeRef.afterRemove editable) }
        match previousDiv with
        | some prev =>
            some ({ s1 with deferred := s1.deferred ++ [⟨.block prev, .last⟩] }, true)
        | none =>
            let (s2, newEditable) := createNewEditableDiv P s1 .container []
            some ({ s2 with deferred := s2.deferred ++ [⟨newEditable, .first⟩] }, true)
      else some (s, false)
    else some (s, false)

/-- The element part of `transformHeadingToEditableDiv(headingDiv)`. -/
def transformHeadingElement (P : Platform) (headingDiv : Element) : Element :=
  let (content, e1) : Str × Element :=
    if classContains headingDiv "heading1" then
      ("#".toList ++ headingDiv.dataTitle.getD [],
       { headingDiv with classList := classRemove headingDiv.classList "heading1",
                         dataTitle := none })
    else if classContains headingDiv "heading2" then
      ("##".toList ++ headingDiv.dataHeading2.getD [],
       { headingDiv with classList := classRemove headingDiv.classList "heading2",
                         dataHeading2 := none })
    else if classContains headingDiv "heading3" then
      ("###".toList ++ headingDiv.dataHeading3.getD [],
       { headingDiv with classList := classRemove headingDiv.classList "heading3",
                         dataHeading3 := none })
    else ([], headingDiv)
  let e2 := { e1 with contenteditable := some "true" }
  setInnerHTML P e2 content

/-- The element part of `transformEquationToEditableDiv(equationDiv)`. -/
def transformEquationElement (P : Platform) (equationDiv : Element) : Element :=
  let latex := equationDiv.dataLatex.getD []
  let e1 := { equationDiv with classList := classRemove equationDiv.classList "equation" }
  let e2 := { e1 with contenteditable := some "true" }
  let e3 := setInnerHTML P e2 ("/".toList ++ latex)
  { e3 with dataLatex := none }

/-- `transformHeadingToEditableDiv(headingDiv)` on child number `i` of the
container: the element is rewritten (the assignment to `innerHTML` moves the
boundary points inside it to `(block, 0)`), `headingDiv.focus()` moves focus to
it, and the selection is collapsed at its end (`setCursorToEnd`). -/
def transformHeadingToEditableDiv {α : Type} (P : Platform) (s : EditorState α) (i : Nat) :
    EditorState α :=
  match s.blocks[i]? with
  | none => s
  | some headingDiv =>
      let e := transformHeadingElement P headingDiv
      let s1 : EditorState α :=
        { s with blocks := s.blocks.set i e,
                 selection := s.selection.map (Range.map (Boundary.afterReplace i)) }
      let s2 := focusElement P s1 (.block i)
      match s2.blocks[i]? with
      | none => s2
      | some current => { s2 with selection := collapsedAt i (setCursorToEnd current) }

/-- `transformEquationToEditableDiv(equationDiv)` on child number `i` of the
container. -/
def transformEquationToEditableDiv {α : Type} (P : Platform) (s : EditorState α) (i : Nat) :
    EditorState α :=
  match s.blocks[i]? with
  | none => s
  | some equationDiv =>
      let e := transformEquationElement P equationDiv
      let s1 : EditorState α :=
        { s with blocks := s.blocks.set i e,
                 selection := s.selection.map (Range.map (Boundary.afterReplace i)) }
      let s2 := focusElement P s1 (.block i)
      match s2.blocks[i]? with
      | none => s2
      | some current => { s2 with selection := collapsedAt i (setCursorToEnd current) }

/-! ## Range.insertNode: the measuring probe -/

/-- The children of an element after a probe at the boundary point
`(path, off)` below it.  `range.insertNode(span)` splits the text node that
holds the point into the data before and the data after the point and puts the
span between them; `removeChild(span)` then leaves the two text nodes.  A
point in an element splits nothing. -/
def splitAt : List Node → List Nat → Nat → List Node
  | cs, [], _ => cs
  | cs, i :: rest, off =>
      match cs[i]? with
      | some (.text data) =>
          cs.take i ++ .text (data.take off) :: .text (data.drop off) :: cs.drop (i + 1)
      | some (.elem tag ks) => cs.set i (.elem tag (splitAt ks rest off))
      | none => cs

/-- Live-range update of the boundary point `q` of the same element under the
probe at `(path, off)`: a point of the split text node past `off` moves into
the new text node, points at or below later siblings move one child on. -/
def pointAfterProbe : List Node → List Nat → Nat → Point → Point
  | _, [], _, q => q
  | cs, i :: rest, off, q =>
      match cs[i]? with
      | some (.text _) =>
          match q.path with
          | [] => if i + 1 ≤ q.offset then ⟨[], q.offset + 1⟩ else q
          | m :: qrest =>
              if m = i then (if off < q.offset then ⟨(i + 1) :: qrest, q.offset - off⟩ else q)
              else if i < m then ⟨(m + 1) :: qrest, q.offset⟩ else q
      | some (.elem _ ks) =>
          match q.path with
          | [] => q
          | m :: qrest =>
              if m = i then
                let q' := pointAfterProbe ks rest off ⟨qrest, q.offset⟩
                ⟨i :: q'.path, q'.offset⟩
              else q
      | none => q

/-- A block after a probe at its point `p`. -/
def probeElement (e : Element) (p : Point) : Element :=
  { e with childNodes := splitAt e.childNodes p.path p.offset }

/-- Live-range update of a boundary point under a probe at point `p` of block
`i`, whose children were `cs`. -/
def Boundary.afterProbe (i : Nat) (cs : List Node) (p : Point) : Boundary → Boundary
  | .inBlock b q => if b = i then .inBlock b (pointAfterProbe cs p.path p.offset q) else .inBlock b q
  | b => b

/-- The state after `range.insertNode(span)` and `removeChild(span)` at point
`p` of child number `i` of the container. -/
def probeBlock {α : Type} (s : EditorState α) (i : Nat) (p : Point) : EditorState α :=
  match s.blocks[i]? with
  | none => s
  | some e =>
      { s with blocks := s.blocks.set i (probeElement e p),
               selection := s.selection.map (Range.map (Boundary.afterProbe i e.childNodes p)) }

/-- The state after a probe at a boundary point (a point outside the blocks
leaves the blocks as they are). -/
def probeAt {α : Type} (s : EditorState α) : Boundary → EditorState α
  | .inBlock b p => probeBlock s b p
  | _ => s

/-! ## utils.js: caret geometry -/

/-- Measured geometry of the page: each rectangle is `(left, top)` as returned
by `getBoundingClientRect()` at the moment of the measurement; a boundary point
is named by its path at that moment. -/
structure Layout (α : Type) where
  /-- Rectangle of child number `i` of the container. -/
  elementRect : Nat → α × α
  /-- Rectangle of a zero-width-space `span` inserted at a boundary point. -/
  spanRect : Boundary → α × α
  /-- Rectangle of the collapsed range at a boundary point of block `i`. -/
  rangeRect : Nat → Point → α × α

section Geometry
variable {α : Type} [LinearOrderedRing α]

/-- `getCursorYPosition(editableElement)`: the measured `y` (`none` is the
source's `null`) and the state the probe at the start of the selection leaves. -/
def getCursorYPosition (L : Layout α) (s : EditorState α) (editableElement : Nat) :
    Option α × EditorState α :=
  match s.selection with
  | none => (none, s)
  | some range =>
      (some ((L.spanRect range.start).2 - (L.elementRect editableElement).2),
       probeAt s range.start)

/-- `getStartYPosition(editableElement)`: the probe sits at
`(firstChild || editableElement, 0)`. -/
def getStartYPosition (L : Layout α) (s : EditorState α) (i : Nat) : α × EditorState α :=
  match s.blocks[i]? with
  | none => ((L.spanRect (.inBlock i ⟨[], 0⟩)).2 - (L.elementRect i).2, s)
  | some editableElement =>
      ((L.spanRect (.inBlock i (setCursorToStart editableElement))).2 - (L.elementRect i).2,
       probeBlock s i (setCursorToStart editableElement))

/-- `getEndYPosition(editableElement)`: the probe sits at the end of the last
child when it is a text node, else at `(editableElement, childNodes.length)`. -/
def getEndYPosition (L : Layout α) (s : EditorState α) (i : Nat) : α × EditorState α :=
  match s.blocks[i]? with
  | none => ((L.spanRect (.inBlock i ⟨[], 0⟩)).2 - (L.elementRect i).2, s)
  | some editableElement =>
      ((L.spanRect (.inBlock i (setCursorToEnd editableElement))).2 - (L.elementRect i).2,
       probeBlock s i (setCursorToEnd editableElement))

/-- `isCursorOnFirstLine(editableElement)` and the state its probes leave. -/
def isCursorOnFirstLine (L : Layout α) (s : EditorState α) (i : Nat) : Bool × EditorState α :=
  match getCursorYPosition L s i with
  | (none, s1) => (false, s1)
  | (some currentY, s1) =>
      (decide (|currentY - (getStartYPosition L s1 i).1| < 1), (getStartYPosition L s1 i).2)

/-- `isCursorOnLastLine(editableElement)` and the state its probes leave. -/
def isCursorOnLastLine (L : Layout α) (s : EditorState α) (i : Nat) : Bool × EditorState α :=
  match getCursorYPosition L s i with
  | (none, s1) => (false, s1)
  | (some currentY, s1) =>
      (decide (|currentY - (getEndYPosition L s1 i).1| < 1), (getEndYPosition L s1 i).2)

/-- The variables `minDistance`, `closestNode`, `closestOffset` of
`setCursorClosestToX`: `none` is the initial `(Infinity, null, null)`. -/
abbrev Scan (α : Type) := Option (α × Point)

/-- One iteration of the `for` loop of `findClosestOffsetInTextNode`, at
offset `i` of the text node at `path`. -/
def scanOffset (L : Layout α) (blk : Nat) (targetY desiredX : α) (path : List Nat)
    (st : Scan α) (i : Nat) : Scan α :=
  let rect := L.rangeRect blk ⟨path, i⟩
  let parentRect := L.elementRect blk
  let x := rect.1 - parentRect.1
  let y := rect.2 - parentRect.2
  if |y - targetY| < 1 then
    let distance := |x - desiredX|
    match st with
    | none => some (distance, ⟨path, i⟩)
    | some (minDistance, _) =>
        if distance < minDistance then some (distance, ⟨path, i⟩) else st
  else st

/-- `findClosestOffsetInTextNode(node)` for the text node at `path` with data
`data`. -/
def findClosestOffsetInTextNode (L : Layout α) (blk : Nat) (targetY desiredX : α)
    (path : List Nat) (data : Str) (st : Scan α) : Scan α :=
  if data.length = 0 then st
  else (List.range (data.length + 1)).foldl (scanOffset L blk targetY desiredX path) st

mutual
/-- `traverse(node)` of `setCursorClosestToX` for the node at `path`. -/
def traverse (L : Layout α) (blk : Nat) (targetY desiredX : α) :
    Node → List Nat → Scan α → Scan α
  | .text data, path, st => findClosestOffsetInTextNode L blk targetY desiredX path data st
  | .elem _ cs, path, st => traverseChildren L blk targetY desiredX cs path 0 st
/-- `node.childNodes.forEach(child => traverse(child))` for the node at `path`,
from child number `k`. -/
def traverseChildren (L : Layout α) (blk : Nat) (targetY desiredX : α) :
    List Node → List Nat → Nat → Scan α → Scan α
  | [], _, _, st => st
  | c :: cs, path, k, st =>
      traverseChildren L blk targetY desiredX cs path (k + 1)
        (traverse L blk targetY desiredX c (path ++ [k]) st)
end

/-- The `targetY` of `setCursorClosestToX`:
`position === 'first' ? getStartYPosition(editable) : getEndYPosition(editable)`,
and the state the probe leaves. -/
def edgeY (L : Layout α) (s : EditorState α) (blk : Nat) (position : Edge) :
    α × EditorState α :=
  match position with
  | .first => getStartYPosition L s blk
  | .last => getEndYPosition L s blk

/-- The boundary point `setCursorClosestToX(editable, desiredX, position)`
collapses the selection to, for child number `blk` of the container:
`editable` is the block as the edge probe left it, `targetY` the measured edge
line. -/
def closestPoint (L : Layout α) (blk : Nat) (editable : Element) (targetY desiredX : α)
    (position : Edge) : Point :=
  match traverseChildren L blk targetY desiredX editable.childNodes [] 0 none with
  | some (_, closest) => closest
  | none =>
      match position with
      | .first => setCursorToStart editable
      | .last => setCursorToEnd editable

/-- `setCursorClosestToX(editable, desiredX, position)` on the state: the edge
probe, then the scan of the block as the probe left it. -/
def setCursorClosestToX (L : Layout α) (s : EditorState α) (blk : Nat) (desiredX : α)
    (position : Edge) : EditorState α :=
  match s.blocks[blk]? with
  | none => s
  | some _ =>
      match (edgeY L s blk position).2.blocks[blk]? with
      | none => (edgeY L s blk position).2
      | some editable =>
          { (edgeY L s blk position).2 with
            selection := collapsedAt blk
              (closestPoint L blk editable (edgeY L s blk position).1 desiredX position) }

/-! ## editor.js: the keydown listener -/

/-- The class test at the top of the keydown listener. -/
def isRecognizedBlock (target : Element) : Bool :=
  classContains target "editable" || classContains target "heading1" ||
  classContains target "heading2" || classContains target "heading3" ||
  classContains target "equation"

/-- The rendered-block test of the arrow branches followed by the transform it
selects. -/
def enterRenderedBlock (P : Platform) (s : EditorState α) (i : Nat) : EditorState α :=
  match s.blocks[i]? with
  | none => s
  | some div =>
      if classContains div "equation" then transformEquationToEditableDiv P s i
      else if classContains div "heading1" || classContains div "heading2" ||
          classContains div "heading3" then transformHeadingToEditableDiv P s i
      else s

/-- The `keydown` listener of the editor container.  The `Bool` is whether
`event.preventDefault()` was called.  The arrow branches leave the state their
probes produced, also when they do nothing else. -/
def keydown (L : Layout α) (P : Platform) (s : EditorState α) (event : KeyEvent) :
    Option (EditorState α × Bool) :=
  match s.blocks[event.target]? with
  | none => some (s, false)
  | some target =>
    if !isRecognizedBlock target then some (s, false)
    else if (event.ctrlKey || event.metaKey) && event.key = "Enter" then
      if s.isComposing then some (s, false)
      else handleEnterKey P s event event.target
    else if event.key = "ArrowUp" then
      if s.isComposing then some (s, false)
      else
        let onFirstLine := isCursorOnFirstLine L s event.target
        if onFirstLine.1 then
          match findPreviousEditableDiv onFirstLine.2.blocks event.target with
          | some previousDiv =>
              let s1 := setCursorClosestToX L onFirstLine.2 previousDiv s.desiredX .last
              some (enterRenderedBlock P s1 previousDiv, true)
          | none => some (onFirstLine.2, true)
        else some (onFirstLine.2, false)
    else if event.key = "ArrowDown" then
      if s.isComposing then some (s, false)
      else
        let onLastLine := isCursorOnLastLine L s event.target
        if onLastLine.1 then
          match findNextEditableDiv onLastLine.2.blocks event.target with
          | some nextDiv =>
              let s1 := setCursorClosestToX L onLastLine.2 nextDiv s.desiredX .first
              some (enterRenderedBlock P s1 nextDiv, true)
          | none => some (onLastLine.2, true)
        else some (onLastLine.2, false)
    else if event.key = "Backspace" then
      if s.isComposing then some (s, false)
      else handleBackspaceKey P s event event.target
    else if event.key = "/" && trim (innerHTML target) = [] then some (s, true)
    else if event.key = "#" && trim (innerHTML target) = [] then some (s, false)
    else some (s, false)

end Geometry

/-! ## editor.js: deferred caret placement -/

/-- The callback of `moveCursorToEditable(editable, position)`:
`editable.focus()`, then `setCursorToStart(editable)` or
`setCursorToEnd(editable)`. -/
def moveCursorNow {α : Type} (P : Platform) (s : EditorState α) (d : Deferred) :
    EditorState α :=
  let s1 := focusElement P s d.target
  match d.target with
  | .block i =>
      match s1.blocks[i]? with
      | none => s1
      | some editable =>
          match d.position with
          | .first => { s1 with selection := collapsedAt i (setCursorToStart editable) }
          | .last => { s1 with selection := collapsedAt i (setCursorToEnd editable) }
  | .following i =>
      match s1.following[i]? with
      | none => s1
      | some _ => { s1 with selection := some { start := .outside, stop := .outside } }
  | .container => s1

/-- The timer callbacks: every scheduled caret placement runs, oldest first. -/
def runDeferred {α : Type} (P : Platform) (s : EditorState α) : EditorState α :=
  s.deferred.foldl (moveCursorNow P) { s with deferred := [] }

/-! ## A reference fragment parser

The theorems below hold for every `Platform`.  The closed examples run on
`browser`, a fragment parser for the markup the editor itself produces: text,
the character references written by the serialiser, and attribute-free tags. -/

/-- Tokens of the reference parser. -/
inductive Token where
  | chars (data : Str) : Token
  | startTag (tag : Str) : Token
  | endTag (tag : Str) : Token
deriving Repr, DecidableEq

/-- State of the reference tokenizer. -/
inductive LexState where
  | data (acc : Str) : LexState
  | tagName (closing : Bool) (acc : Str) : LexState

/-- Pending character data as a token (no token for empty data). -/
def flushChars (acc : Str) : List Token :=
  if acc.length = 0 then [] else [.chars acc]

/-- The reference tokenizer: `<` opens a tag only before a letter or `/`. -/
def tokenize : LexState → Str → List Token
  | .data acc, [] => flushChars acc
  | .data acc, [c] => flushChars (acc ++ [c])
  | .data acc, c :: d :: rest =>
      if c = '<' ∧ d = '/' then flushChars acc ++ tokenize (.tagName true []) rest
      else if c = '<' ∧ d.isAlpha then flushChars acc ++ tokenize (.tagName false [d]) rest
      else tokenize (.data (acc ++ [c])) (d :: rest)
  | .tagName _ _, [] => []
  | .tagName closing acc, c :: rest =>
      if c = '>' then
        (if closing then Token.endTag acc else Token.startTag acc) :: tokenize (.data []) rest
      else tokenize (.tagName closing (acc ++ [c])) rest

/-- Decoding of the character references the serialiser writes. -/
def decodeRefs : Str → Str
  | '&' :: 'a' :: 'm' :: 'p' :: ';' :: rest => '&' :: decodeRefs rest
  | '&' :: 'l' :: 't' :: ';' :: rest => '<' :: decodeRefs rest
  | '&' :: 'g' :: 't' :: ';' :: rest => '>' :: decodeRefs rest
  | '&' :: 'n' :: 'b' :: 's' :: 'p' :: ';' :: rest => Char.ofNat 0xA0 :: decodeRefs rest
  | c :: rest => c :: decodeRefs rest
  | [] => []

/-- Closes the elements still open at the end of input. -/
def closeAll : List (Str × List Node) → List Node → List Node
  | [], cur => cur
  | (tag, parent) :: stack, cur => closeAll stack (parent ++ [.elem (String.mk tag) cur])

/-- Tree construction of the reference parser: `stack` holds the open elements
with the siblings collected before each, `cur` the children collected for the
innermost open element. -/
def buildTree : List Token → List (Str × List Node) → List Node → List Node
  | [], stack, cur => closeAll stack cur
  | .chars data :: ts, stack, cur => buildTree ts stack (cur ++ [.text (decodeRefs data)])
  | .startTag tag :: ts, stack, cur => buildTree ts ((tag, cur) :: stack) []
  | .endTag tag :: ts, stack, cur =>
      match stack with
      | (open_, parent) :: below =>
          if open_ = tag then buildTree ts below (parent ++ [.elem (String.mk tag) cur])
          else buildTree ts stack cur
      | [] => buildTree ts [] cur

/-- The reference fragment parser. -/
def parseFragment (markup : Str) : List Node :=
  buildTree (tokenize (.data []) markup) [] []

/-- The reference platform. -/
def browser : Platform := { parseHTML := parseFragment }

/-- A plain editable paragraph block with the given child nodes. -/
def paragraph (childNodes : List Node) : Element :=
  { classList := ["editable"], contenteditable := some "true", dataTitle := none,
    dataHeading2 := none, dataHeading3 := none, dataLatex := none, childNodes := childNodes }

/-! ## Observations used by the statements -/

/-- The block kinds of the data model. -/
inductive Kind where
  | Paragraph | Heading1 | Heading2 | Heading3 | Equation
deriving Repr, DecidableEq

/-- The kind of a block as the listeners tell it: by class, `equation` first,
then `heading1`, `heading2`, `heading3`; no kind class is a paragraph. -/
def kindOf (e : Element) : Kind :=
  if classContains e "equation" then .Equation
  else if classContains e "heading1" then .Heading1
  else if classContains e "heading2" then .Heading2
  else if classContains e "heading3" then .Heading3
  else .Paragraph

/-- The stored source of a block: the `data-*` attribute of its kind. -/
def storedSource (e : Element) : Option Str :=
  match kindOf e with
  | .Equation => e.dataLatex
  | .Heading1 => e.dataTitle
  | .Heading2 => e.dataHeading2
  | .Heading3 => e.dataHeading3
  | .Paragraph => none

/-- Parse as the specification words it: the trimmed raw text is tested
against the prefixes in the priority order `###`, `##`, `#`, `/`; the first
matching prefix with a non-empty trimmed remainder gives the kind and the
stored source, anything else leaves the block as it is (`none`). -/
def parseSpecOrder (rawText : Str) : Option (Kind × Str) :=
  let content := trim rawText
  if startsWith content "###".toList then
    if trim (substring content 3) ≠ [] then some (.Heading3, trim (substring content 3)) else none
  else if startsWith content "##".toList then
    if trim (substring content 2) ≠ [] then some (.Heading2, trim (substring content 2)) else none
  else if startsWith content "#".toList then
    if trim (substring content 1) ≠ [] then some (.Heading1, trim (substring content 1)) else none
  else if startsWith content "/".toList then
    if trim (substring content 1) ≠ [] then some (.Equation, trim (substring content 1)) else none
  else none

/-- The render function of a kind. -/
def renderAs (P : Platform) (editable : Element) : Kind → Str → Element
  | .Heading3, source => renderHeading3 P editable source
  | .Heading2, source => renderHeading2 P editable source
  | .Heading1, source => renderTitle P editable source
  | .Equation, source => renderEquation P editable source
  | .Paragraph, _ => editable


/-- The marker of a kind. -/
def marker : Kind → Str
  | .Heading1 => "#".toList
  | .Heading2 => "##".toList
  | .Heading3 => "###".toList
  | .Equation => "/".toList
  | .Paragraph => []

/-- Unparse of a block as the click listener and the arrow branches dispatch
it: `transformEquationToEditableDiv` for class `equation`, else
`transformHeadingToEditableDiv` for a heading class, else nothing. -/
def unparseElement (P : Platform) (e : Element) : Element :=
  if classContains e "equation" then transformEquationElement P e
  else if classContains e "heading1" || classContains e "heading2" ||
      classContains e "heading3" then transformHeadingElement P e
  else e

/-! ## Fixtures of the closed examples -/

/-- A layout with every rectangle at the origin: all text on one visual
line. -/
def flatLayout : Layout Int :=
  { elementRect := fun _ => (0, 0), spanRect := fun _ => (0, 0), rangeRect := fun _ _ => (0, 0) }

/-- The editor holding `blocks`, block `i` focused with the caret collapsed at
its point `p`, no composition running, nothing scheduled, nothing after the
container. -/
def docState (blocks : List Element) (i : Nat) (p : Point) : EditorState Int :=
  { blocks := blocks, following := [], selection := collapsedAt i p, isComposing := false,
    desiredX := 0, deferred := [], focused := some (.block i) }

/-- A key pressed without modifiers on child number `target`. -/
def plainKey (key : String) (target : Nat) : KeyEvent :=
  { key := key, ctrlKey := false, metaKey := false, target := target }

/-- The boundary point `p` lies in the block element itself or in one of its
text children (not inside a nested inline element). -/
def atTopLevel (childNodes : List Node) (p : Point) : Bool :=
  match p.path with
  | [] => true
  | i :: _ =>
      match childNodes[i]? with
      | some (.text _) => true
      | _ => false

section Positions
variable {α : Type} [LinearOrderedRing α]

mutual
/-- The boundary points the scan of `setCursorClosestToX` measures below the
node at `path`, in scan order: the offsets `0..length` of every text node
whose data is not empty. -/
def nodePositions : Node → List Nat → List Point
  | .text data, path =>
      if data.length = 0 then [] else (List.range (data.length + 1)).map (fun i => ⟨path, i⟩)
  | .elem _ cs, path => childPositions cs path 0
/-- The scanned boundary points below the children of the node at `path`,
from child number `k`. -/
def childPositions : List Node → List Nat → Nat → List Point
  | [], _, _ => []
  | c :: cs, path, k => nodePositions c (path ++ [k]) ++ childPositions cs path (k + 1)
end

/-- The scanned boundary points of a block. -/
def scannedPositions (editable : Element) : List Point :=
  childPositions editable.childNodes [] 0

mutual
/-- Every text position below the node at `path`: the offsets `0..length` of
every text node, empty ones included. -/
def nodeTextPositions : Node → List Nat → List Point
  | .text data, path => (List.range (data.length + 1)).map (fun i => ⟨path, i⟩)
  | .elem _ cs, path => childTextPositions cs path 0
/-- Every text position below the children of the node at `path`, from child
number `k`. -/
def childTextPositions : List Node → List Nat → Nat → List Point
  | [], _, _ => []
  | c :: cs, path, k => nodeTextPositions c (path ++ [k]) ++ childTextPositions cs path (k + 1)
end

/-- Every text position of a block. -/
def textPositions (editable : Element) : List Point :=
  childTextPositions editable.childNodes [] 0

/-- The `x` the scan measures at a boundary point: `rect.left - parentRect.left`. -/
def measuredX (L : Layout α) (blk : Nat) (p : Point) : α :=
  (L.rangeRect blk p).1 - (L.elementRect blk).1

/-- The `y` the scan measures at a boundary point: `rect.top - parentRect.top`. -/
def measuredY (L : Layout α) (blk : Nat) (p : Point) : α :=
  (L.rangeRect blk p).2 - (L.elementRect blk).2

/-- A monospace single-line layout: offset `i` of any text node sits `17 * i`
pixels from the left edge of the block, on the first line. -/
def monoLayout : Layout Int :=
  { elementRect := fun _ => (0, 0), spanRect := fun _ => (0, 0),
    rangeRect := fun _ p => (17 * (p.offset : Int), 0) }

end Positions

section ScanState
variable {α : Type} [LinearOrderedRing α]

/-- The state of the scan after the boundary points `seen`. -/
def ScanInv (L : Layout α) (blk : Nat) (tY X : α) (seen : List Point) : Scan α → Prop
  | none => ∀ q ∈ seen, ¬ |measuredY L blk q - tY| < 1
  | some (d, p) =>
      p ∈ seen ∧ |measuredY L blk p - tY| < 1 ∧ d = |measuredX L blk p - X| ∧
      ∀ q ∈ seen, |measuredY L blk q - tY| < 1 → d ≤ |measuredX L blk q - X|

end ScanState

/-! ## utils.js: escapeHtml -/

/-- `s.replace(/c/g, r)` for a one-character pattern `c`. -/
def replaceAll (c : Char) (r : Str) (s : Str) : Str :=
  s.flatMap (fun x => if x = c then r else [x])

/-- `escapeHtml(unsafe)`: the five replacements in the order of the source. -/
def escapeHtml (unsafe_ : Str) : Str :=
  replaceAll (Char.ofNat 39) "&#039;".toList
    (replaceAll (Char.ofNat 34) "&quot;".toList
      (replaceAll '>' "&gt;".toList
        (replaceAll '<' "&lt;".toList
          (replaceAll '&' "&amp;".toList unsafe_))))

/-- The character map of the claim: `&`, `<`, `>`, `"` (34), `'` (39) go to
their entities, every other character to itself. -/
def escapeEntity (c : Char) : Str :=
  if c = '&' then "&amp;".toList
  else if c = '<' then "&lt;".toList
  else if c = '>' then "&gt;".toList
  else if c = Char.ofNat 34 then "&quot;".toList
  else if c = Char.ofNat 39 then "&#039;".toList
  else [c]

/-- The text that follows `&` in the five entities. -/
def entityTails : List Str :=
  ["amp;".toList, "lt;".toList, "gt;".toList, "quot;".toList, "#039;".toList]

/-- The number of kind classes (`equation`, `heading1`, `heading2`,
`heading3`) a block carries; a rendered block carries one. -/
def kindClassCount (e : Element) : Nat :=
  (["equation", "heading1", "heading2", "heading3"].filter (classContains e)).length

/-- The `data-*` attribute in which a block of kind `k` stores its source. -/
def kindData (k : Kind) (e : Element) : Option Str :=
  match k with
  | .Equation => e.dataLatex
  | .Heading1 => e.dataTitle
  | .Heading2 => e.dataHeading2
  | .Heading3 => e.dataHeading3
  | .Paragraph => none

/-- The outcome `r` of a keydown is: default prevented, the document as long
as before, block `j` (which was rendered with kind `k` and stored source
`src`) editable again with no kind class and no stored-source attribute, its
markup set to the marker followed by the source, focus on it and the selection
collapsed at its end; when that markup is read as one text node the caret is
at the end of that text. -/
def EnteredAtTail {α : Type} (P : Platform) (s : EditorState α) (j : Nat) (k : Kind)
    (src : Str) (r : Option (EditorState α × Bool)) : Prop :=
  ∃ s' e', r = some (s', true) ∧ s'.blocks.length = s.blocks.length ∧
    s'.blocks[j]? = some e' ∧
    kindOf e' = .Paragraph ∧ kindData k e' = none ∧ e'.contenteditable = some "true" ∧
    e'.childNodes = P.parseHTML (marker k ++ src) ∧
    s'.focused = some (.block j) ∧
    s'.selection = collapsedAt j (setCursorToEnd e') ∧
    (P.parseHTML (marker k ++ src) = [.text (marker k ++ src)] →
      s'.selection = collapsedAt j ⟨[0], (marker k ++ src).length⟩)

/-- The attributes of a block: everything but its child nodes. -/
def attrs (e : Element) :
    List String × Option String × Option Str × Option Str × Option Str × Option Str :=
  (e.classList, e.contenteditable, e.dataTitle, e.dataHeading2, e.dataHeading3, e.dataLatex)

/-! ## utils.js: caret offsets -/

mutual
/-- `traverseNodes(node)` of `setCaretPosition(element, offset)` for the node
at `path`, entered with `currentOffset = cur`.  The first component is the
boundary point at which the range is started when the call returns `true`
(`none` when it returns `false`); the second is `currentOffset` afterwards. -/
def traverseNodes (offset : Nat) : Node → List Nat → Nat → Option Point × Nat
  | .text data, path, cur =>
      if cur + data.length ≥ offset then (some ⟨path, offset - cur⟩, cur)
      else (none, cur + data.length)
  | .elem _ cs, path, cur => traverseNodesChildren offset cs path 0 cur
/-- The loop `for (let child of node.childNodes) if (traverseNodes(child))
return true` for the node at `path`, from child number `k`. -/
def traverseNodesChildren (offset : Nat) : List Node → List Nat → Nat → Nat → Option Point × Nat
  | [], _, _, cur => (none, cur)
  | c :: cs, path, k, cur =>
      match traverseNodes offset c (path ++ [k]) cur with
      | (some p, cur') => (some p, cur')
      | (none, cur') => traverseNodesChildren offset cs path (k + 1) cur'
end

/-- `setCaretPosition(element, offset)` for child number `element` of the
container (an index past the end is the source's null `element`): the
selection is emptied, then collapsed at the point the traversal finds. -/
def setCaretPosition {α : Type} (s : EditorState α) (element : Nat) (offset : Nat) :
    EditorState α :=
  match s.blocks[element]? with
  | none => s
  | some e =>
      match (traverseNodesChildren offset e.childNodes [] 0 0).1 with
      | some p => { s with selection := collapsedAt element p }
      | none => { s with selection := none }

/-- `getCaretCharacterOffsetWithin(element)` for child number `element` of the
container: the length of `toString()` of the range from the start of the
element to the end of the selection's range (the text of the nodes the range
holds), 0 when there is no range.  `none` only when `element` is not a child of
the container or the range ends outside `element`, which this model does not
cover. -/
def getCaretCharacterOffsetWithin {α : Type} (s : EditorState α) (element : Nat) :
    Option Nat :=
  match s.blocks[element]? with
  | none => none
  | some e =>
      match s.selection with
      | none => some 0
      | some range =>
          match range.stop with
          | .inBlock b p =>
              if b = element then
                some (nodesText (cloneBefore e.childNodes p.path p.offset)).length
              else none
          | _ => none

/-- The data of the text node at `path` below an element with children `cs`
(`none` when the path does not lead to a text node). -/
def textNodeAt : List Node → List Nat → Option Str
  | _, [] => none
  | cs, i :: rest =>
      match cs[i]? with
      | some (.text data) => if rest.isEmpty then some data else none
      | some (.elem _ ks) => textNodeAt ks rest
      | none => none

mutual
/-- The node is a text node or has a text node below it. -/
def nodeHasText : Node → Bool
  | .text _ => true
  | .elem _ cs => nodesHaveText cs
/-- There is a text node in or below the list. -/
def nodesHaveText : List Node → Bool
  | [] => false
  | c :: cs => nodeHasText c || nodesHaveText cs
end

/-- The data of the text node at the relative path `rel` in or below a node. -/
def nodeTextAt : Node → List Nat → Option Str
  | .text data, rel => if rel.isEmpty then some data else none
  | .elem _ ks, rel => textNodeAt ks rel

/-- The text of a node before the point `(rel, off)` in or below it. -/
def nodeTextBefore : Node → List Nat → Nat → Str
  | .text data, _, off => data.take off
  | .elem _ ks, rel, off => nodesText (cloneBefore ks rel off)

/-- The boundary point of the edge probe of `setCursorClosestToX`: where
`getStartYPosition` (`first`) or `getEndYPosition` (`last`) inserts its span. -/
def edgePoint (editable : Element) (position : Edge) : Point :=
  match position with
  | .first => setCursorToStart editable
  | .last => setCursorToEnd editable

/-- The block as the edge probe of `setCursorClosestToX` leaves it: the first
(`first`) or last (`last`) child, when it is a text node, split at its start or
end. -/
def edgeProbed (editable : Element) (position : Edge) : Element :=
  probeElement editable (edgePoint editable position)

/-! # Theorems -/

/-! ## Lemmas on strings and classes -/

theorem startsWith_slash_hash (c : Str) (h : startsWith c "/".toList = true) :
    startsWith c "#".toList = false := by
  cases c with
  | nil => simp [startsWith] at h
  | cons x xs =>
    simp [startsWith, List.isPrefixOf] at h ⊢
    rw [← h]; decide

theorem startsWith_hash3_hash2 (c : Str) (h : startsWith c "###".toList = true) :
    startsWith c "##".toList = true := by
  match c, h with
  | [], h => simp [startsWith] at h
  | [_], h => simp [startsWith, List.isPrefixOf] at h
  | [_, _], h => simp [startsWith, List.isPrefixOf] at h
  | x :: y :: z :: r, h => simp [startsWith, List.isPrefixOf] at h ⊢; exact ⟨h.1, h.2.1⟩

theorem startsWith_hash2_hash (c : Str) (h : startsWith c "##".toList = true) :
    startsWith c "#".toList = true := by
  match c, h with
  | [], h => simp [startsWith] at h
  | [_], h => simp [startsWith, List.isPrefixOf] at h
  | x :: y :: r, h => simp [startsWith, List.isPrefixOf] at h ⊢; exact h.1

theorem startsWith_hash_false_hash2 (c : Str) (h : startsWith c "#".toList = false) :
    startsWith c "##".toList = false := by
  cases hh : startsWith c "##".toList
  · rfl
  · rw [startsWith_hash2_hash c hh] at h; exact absurd h (by decide)

theorem startsWith_hash2_false_hash3 (c : Str) (h : startsWith c "##".toList = false) :
    startsWith c "###".toList = false := by
  cases hh : startsWith c "###".toList
  · rfl
  · rw [startsWith_hash3_hash2 c hh] at h; exact absurd h (by decide)

theorem length_pos_iff_ne_nil (s : Str) : s.length > 0 ↔ s ≠ [] := by
  cases s <;> simp

/-- `handleFocusOut` computes what the specification's priority order
prescribes. -/
theorem handleFocusOut_eq_parseSpecOrder (P : Platform) (editable : Element) :
    handleFocusOut P editable =
      match parseSpecOrder (textContent editable) with
      | some (k, source) => renderAs P editable k source
      | none => editable := by
  unfold handleFocusOut parseSpecOrder
  simp only [length_pos_iff_ne_nil]
  cases h1 : startsWith (trim (textContent editable)) "/".toList
  · cases h3 : startsWith (trim (textContent editable)) "###".toList
    · cases h2 : startsWith (trim (textContent editable)) "##".toList
      · cases h0 : startsWith (trim (textContent editable)) "#".toList
        · simp only [Bool.false_eq_true, if_false]
        · by_cases hr : trim (substring (trim (textContent editable)) 1) = []
          · simp only [Bool.false_eq_true, if_false, if_true, hr, ne_eq, not_true]
          · simp only [Bool.false_eq_true, if_false, if_true, hr, ne_eq, not_false_eq_true,
              renderAs]
      · by_cases hr : trim (substring (trim (textContent editable)) 2) = []
        · simp only [Bool.false_eq_true, if_false, if_true, hr, ne_eq, not_true]
        · simp only [Bool.false_eq_true, if_false, if_true, hr, ne_eq, not_false_eq_true,
            renderAs]
    · by_cases hr : trim (substring (trim (textContent editable)) 3) = []
      · simp only [Bool.false_eq_true, if_false, if_true, hr, ne_eq, not_true]
      · simp only [Bool.false_eq_true, if_false, if_true, hr, ne_eq, not_false_eq_true,
          renderAs]
  · have h0 := startsWith_slash_hash _ h1
    have h2 := startsWith_hash_false_hash2 _ h0
    have h3 := startsWith_hash2_false_hash3 _ h2
    rw [h0, h2, h3]
    by_cases hr : trim (substring (trim (textContent editable)) 1) = []
    · simp only [Bool.false_eq_true, if_false, if_true, hr, ne_eq, not_true]
    · simp only [Bool.false_eq_true, if_false, if_true, hr, ne_eq, not_false_eq_true,
        renderAs]

theorem classAdd_contains (cl : List String) (c d : String) :
    (classAdd cl c).contains d = true ↔ (cl.contains d = true ∨ d = c) := by
  unfold classAdd
  by_cases h : cl.contains c = true
  · rw [if_pos h]
    constructor
    · intro hd; exact Or.inl hd
    · rintro (hd | hd)
      · exact hd
      · subst hd; exact h
  · rw [if_neg h]; simp

theorem classRemove_contains (cl : List String) (c d : String) :
    (classRemove cl c).contains d = true ↔ (cl.contains d = true ∧ d ≠ c) := by
  unfold classRemove
  simp [List.mem_filter]

theorem kindOf_paragraph_iff (e : Element) :
    kindOf e = .Paragraph ↔
      (classContains e "equation" = false ∧ classContains e "heading1" = false ∧
       classContains e "heading2" = false ∧ classContains e "heading3" = false) := by
  unfold kindOf
  cases classContains e "equation" <;> cases classContains e "heading1" <;>
    cases classContains e "heading2" <;> cases classContains e "heading3" <;> simp

theorem parseSpecOrder_cases (T : Str) (k : Kind) (r : Str)
    (h : parseSpecOrder T = some (k, r)) : k ≠ .Paragraph ∧ r ≠ [] := by
  unfold parseSpecOrder at h
  simp only at h
  split at h
  · split at h
    · cases h; simpa using ‹_›
    · cases h
  · split at h
    · split at h
      · cases h; simpa using ‹_›
      · cases h
    · split at h
      · split at h
        · cases h; simpa using ‹_›
        · cases h
      · split at h
        · split at h
          · cases h; simpa using ‹_›
          · cases h
        · cases h

theorem classContains_renderEquation (P : Platform) (e : Element) (r : Str) (d : String) :
    classContains (renderEquation P e r) d = true ↔ (classContains e d = true ∨ d = "equation") := by
  simp only [classContains, renderEquation, setInnerHTML, classAdd_contains]

theorem classContains_renderTitle (P : Platform) (e : Element) (r : Str) (d : String) :
    classContains (renderTitle P e r) d = true ↔ (classContains e d = true ∨ d = "heading1") := by
  simp only [classContains, renderTitle, setInnerHTML, classAdd_contains]

theorem classContains_renderHeading2 (P : Platform) (e : Element) (r : Str) (d : String) :
    classContains (renderHeading2 P e r) d = true ↔ (classContains e d = true ∨ d = "heading2") := by
  simp only [classContains, renderHeading2, setInnerHTML, classAdd_contains]

theorem classContains_renderHeading3 (P : Platform) (e : Element) (r : Str) (d : String) :
    classContains (renderHeading3 P e r) d = true ↔ (classContains e d = true ∨ d = "heading3") := by
  simp only [classContains, renderHeading3, setInnerHTML, classAdd_contains]

/-- Rendering a paragraph block gives a block of the rendered kind holding the
source. -/
theorem kindOf_renderAs (P : Platform) (e : Element) (k : Kind) (r : Str)
    (hpar : kindOf e = .Paragraph) :
    kindOf (renderAs P e k r) = k ∧ (k ≠ .Paragraph → storedSource (renderAs P e k r) = some r) := by
  obtain ⟨he, h1, h2, h3⟩ := (kindOf_paragraph_iff e).1 hpar
  cases k
  · exact ⟨hpar, fun h => absurd rfl h⟩
  · have hk : kindOf (renderTitle P e r) = .Heading1 := by
      unfold kindOf
      simp [classContains_renderTitle, he, h1, h2, h3]
    refine ⟨hk, fun _ => ?_⟩
    unfold storedSource
    simp only [renderAs, hk]
    rfl
  · have hk : kindOf (renderHeading2 P e r) = .Heading2 := by
      unfold kindOf
      simp [classContains_renderHeading2, he, h1, h2, h3]
    refine ⟨hk, fun _ => ?_⟩
    unfold storedSource
    simp only [renderAs, hk]
    rfl
  · have hk : kindOf (renderHeading3 P e r) = .Heading3 := by
      unfold kindOf
      simp [classContains_renderHeading3, he, h1, h2, h3]
    refine ⟨hk, fun _ => ?_⟩
    unfold storedSource
    simp only [renderAs, hk]
    rfl
  · have hk : kindOf (renderEquation P e r) = .Equation := by
      unfold kindOf
      simp [classContains_renderEquation, he, h1, h2, h3]
    refine ⟨hk, fun _ => ?_⟩
    unfold storedSource
    simp only [renderAs, hk]
    rfl

theorem focusOut_of_parseSpecOrder (P : Platform) (e : Element) (k : Kind) (r : Str)
    (hpar : kindOf e = .Paragraph) (hs : parseSpecOrder (textContent e) = some (k, r)) :
    handleFocusOut P e = renderAs P e k r ∧ kindOf (handleFocusOut P e) = k ∧
      storedSource (handleFocusOut P e) = some r := by
  have he := handleFocusOut_eq_parseSpecOrder P e
  rw [hs] at he
  have he2 : handleFocusOut P e = renderAs P e k r := he
  have hk := kindOf_renderAs P e k r hpar
  rw [he2]
  exact ⟨rfl, hk.1, hk.2 (parseSpecOrder_cases _ k r hs).1⟩

/-- C1. For a paragraph block whose trimmed text starts with a marker followed
by a non-empty trimmed remainder, `handleFocusOut` renders the kind of the
first matching prefix in the order `###`, `##`, `#`, `/` and stores the trimmed
remainder as the source: `###` gives Heading3, `##` without `###` Heading2, `#`
without `##` Heading1, `/` Equation.  The order in which the code tests the
prefixes (`/`, `###`, `##`, `#`) gives the result of the specification's order
on every input. -/
theorem C1_focusOut_prefix_priority (P : Platform) (editable : Element)
    (hpar : kindOf editable = .Paragraph) :
    (startsWith (trim (textContent editable)) "###".toList = true →
      trim (substring (trim (textContent editable)) 3) ≠ [] →
        handleFocusOut P editable =
          renderHeading3 P editable (trim (substring (trim (textContent editable)) 3)) ∧
        kindOf (handleFocusOut P editable) = .Heading3 ∧
        storedSource (handleFocusOut P editable) =
          some (trim (substring (trim (textContent editable)) 3))) ∧
    (startsWith (trim (textContent editable)) "##".toList = true →
      startsWith (trim (textContent editable)) "###".toList = false →
      trim (substring (trim (textContent editable)) 2) ≠ [] →
        handleFocusOut P editable =
          renderHeading2 P editable (trim (substring (trim (textContent editable)) 2)) ∧
        kindOf (handleFocusOut P editable) = .Heading2 ∧
        storedSource (handleFocusOut P editable) =
          some (trim (substring (trim (textContent editable)) 2))) ∧
    (startsWith (trim (textContent editable)) "#".toList = true →
      startsWith (trim (textContent editable)) "##".toList = false →
      trim (substring (trim (textContent editable)) 1) ≠ [] →
        handleFocusOut P editable =
          renderTitle P editable (trim (substring (trim (textContent editable)) 1)) ∧
        kindOf (handleFocusOut P editable) = .Heading1 ∧
        storedSource (handleFocusOut P editable) =
          some (trim (substring (trim (textContent editable)) 1))) ∧
    (startsWith (trim (textContent editable)) "/".toList = true →
      trim (substring (trim (textContent editable)) 1) ≠ [] →
        handleFocusOut P editable =
          renderEquation P editable (trim (substring (trim (textContent editable)) 1)) ∧
        kindOf (handleFocusOut P editable) = .Equation ∧
        storedSource (handleFocusOut P editable) =
          some (trim (substring (trim (textContent editable)) 1))) ∧
    handleFocusOut P editable =
      (match parseSpecOrder (textContent editable) with
       | some (k, source) => renderAs P editable k source
       | none => editable) := by
  refine ⟨?_, ?_, ?_, ?_, handleFocusOut_eq_parseSpecOrder P editable⟩
  · intro h3 hr
    have hs : parseSpecOrder (textContent editable) =
        some (.Heading3, trim (substring (trim (textContent editable)) 3)) := by
      unfold parseSpecOrder
      simp only [h3, if_true, hr, ne_eq, not_false_eq_true]
    exact focusOut_of_parseSpecOrder P editable _ _ hpar hs
  · intro h2 h3 hr
    have hs : parseSpecOrder (textContent editable) =
        some (.Heading2, trim (substring (trim (textContent editable)) 2)) := by
      unfold parseSpecOrder
      simp only [h3, h2, Bool.false_eq_true, if_false, if_true, hr, ne_eq, not_false_eq_true]
    exact focusOut_of_parseSpecOrder P editable _ _ hpar hs
  · intro h1 h2 hr
    have h3 := startsWith_hash2_false_hash3 _ h2
    have hs : parseSpecOrder (textContent editable) =
        some (.Heading1, trim (substring (trim (textContent editable)) 1)) := by
      unfold parseSpecOrder
      simp only [h3, h2, h1, Bool.false_eq_true, if_false, if_true, hr, ne_eq,
        not_false_eq_true]
    exact focusOut_of_parseSpecOrder P editable _ _ hpar hs
  · intro hs1 hr
    have h1 := startsWith_slash_hash _ hs1
    have h2 := startsWith_hash_false_hash2 _ h1
    have h3 := startsWith_hash2_false_hash3 _ h2
    have hs : parseSpecOrder (textContent editable) =
        some (.Equation, trim (substring (trim (textContent editable)) 1)) := by
      unfold parseSpecOrder
      simp only [h3, h2, h1, hs1, Bool.false_eq_true, if_false, if_true, hr, ne_eq,
        not_false_eq_true]
    exact focusOut_of_parseSpecOrder P editable _ _ hpar hs

/-- Witness of C1 on the raw texts `### Title` and `/x^2`. -/
theorem C1_focusOut_prefix_priority_witness :
    (kindOf (handleFocusOut browser (paragraph [.text "### Title".toList])) = .Heading3 ∧
      storedSource (handleFocusOut browser (paragraph [.text "### Title".toList])) =
        some "Title".toList) ∧
    (kindOf (handleFocusOut browser (paragraph [.text "/x^2".toList])) = .Equation ∧
      storedSource (handleFocusOut browser (paragraph [.text "/x^2".toList])) =
        some "x^2".toList) :=
  ⟨((C1_focusOut_prefix_priority browser (paragraph [.text "### Title".toList])
      (by decide)).1 (by decide) (by decide)).2,
   ((C1_focusOut_prefix_priority browser (paragraph [.text "/x^2".toList])
      (by decide)).2.2.2.1 (by decide) (by decide)).2⟩

theorem parseSpecOrder_source (T : Str) (k : Kind) (r : Str)
    (h : parseSpecOrder T = some (k, r)) :
    r = trim (substring (trim T) (marker k).length) := by
  unfold parseSpecOrder at h
  simp only at h
  split at h
  · split at h
    · cases h; rfl
    · cases h
  · split at h
    · split at h
      · cases h; rfl
      · cases h
    · split at h
      · split at h
        · cases h; rfl
        · cases h
      · split at h
        · split at h
          · cases h; rfl
          · cases h
        · cases h

theorem transformHeadingElement_heading1 (P : Platform) (e : Element)
    (h : classContains e "heading1" = true) :
    transformHeadingElement P e =
      { e with classList := classRemove e.classList "heading1", dataTitle := none,
               contenteditable := some "true",
               childNodes := P.parseHTML ("#".toList ++ e.dataTitle.getD []) } := by
  unfold transformHeadingElement
  rw [if_pos h]
  rfl

theorem transformHeadingElement_heading2 (P : Platform) (e : Element)
    (h1 : classContains e "heading1" = false) (h : classContains e "heading2" = true) :
    transformHeadingElement P e =
      { e with classList := classRemove e.classList "heading2", dataHeading2 := none,
               contenteditable := some "true",
               childNodes := P.parseHTML ("##".toList ++ e.dataHeading2.getD []) } := by
  unfold transformHeadingElement
  rw [if_neg (by rw [h1]; decide), if_pos h]
  rfl

theorem transformHeadingElement_heading3 (P : Platform) (e : Element)
    (h1 : classContains e "heading1" = false) (h2 : classContains e "heading2" = false)
    (h : classContains e "heading3" = true) :
    transformHeadingElement P e =
      { e with classList := classRemove e.classList "heading3", dataHeading3 := none,
               contenteditable := some "true",
               childNodes := P.parseHTML ("###".toList ++ e.dataHeading3.getD []) } := by
  unfold transformHeadingElement
  rw [if_neg (by rw [h1]; decide), if_neg (by rw [h2]; decide), if_pos h]
  rfl

theorem classContains_false_of_not (e : Element) (d : String)
    (h : ¬ classContains e d = true) : classContains e d = false := by
  cases hc : classContains e d
  · rfl
  · exact absurd hc h

theorem contains_remove_add (cl : List String) (c d : String)
    (h : cl.contains d = false) : (classRemove (classAdd cl c) c).contains d = false := by
  cases hc : (classRemove (classAdd cl c) c).contains d
  · rfl
  · rw [classRemove_contains, classAdd_contains] at hc
    rcases hc with ⟨hd | hd, hne⟩
    · rw [h] at hd; exact absurd hd (by decide)
    · exact absurd hd hne

theorem kindOf_paragraph_of_remove_add (e e' : Element) (c : String)
    (hpar : kindOf e = .Paragraph)
    (h : e'.classList = classRemove (classAdd e.classList c) c) :
    kindOf e' = .Paragraph := by
  obtain ⟨he, h1, h2, h3⟩ := (kindOf_paragraph_iff e).1 hpar
  rw [kindOf_paragraph_iff]
  simp only [classContains] at he h1 h2 h3 ⊢
  rw [h]
  exact ⟨contains_remove_add _ _ _ he, contains_remove_add _ _ _ h1,
    contains_remove_add _ _ _ h2, contains_remove_add _ _ _ h3⟩

theorem unparse_renderAs (P : Platform) (e : Element) (k : Kind) (r : Str)
    (hpar : kindOf e = .Paragraph) (hk : k ≠ .Paragraph) :
    (unparseElement P (renderAs P e k r)).childNodes = P.parseHTML (marker k ++ r) ∧
    kindOf (unparseElement P (renderAs P e k r)) = .Paragraph ∧
    (unparseElement P (renderAs P e k r)).contenteditable = some "true" := by
  obtain ⟨he, h1, h2, h3⟩ := (kindOf_paragraph_iff e).1 hpar
  cases k
  · exact absurd rfl hk
  · have c0 : classContains (renderTitle P e r) "equation" = false :=
      classContains_false_of_not _ _ (by simp [classContains_renderTitle, he])
    have c1 : classContains (renderTitle P e r) "heading1" = true := by
      simp [classContains_renderTitle]
    have hu : unparseElement P (renderTitle P e r) =
        transformHeadingElement P (renderTitle P e r) := by
      unfold unparseElement
      rw [if_neg (by rw [c0]; decide), if_pos (by rw [c1]; rfl)]
    simp only [renderAs]
    rw [hu, transformHeadingElement_heading1 P _ c1]
    exact ⟨rfl, kindOf_paragraph_of_remove_add e _ "heading1" hpar rfl, rfl⟩
  · have c0 : classContains (renderHeading2 P e r) "equation" = false :=
      classContains_false_of_not _ _ (by simp [classContains_renderHeading2, he])
    have c1 : classContains (renderHeading2 P e r) "heading1" = false :=
      classContains_false_of_not _ _ (by simp [classContains_renderHeading2, h1])
    have c2 : classContains (renderHeading2 P e r) "heading2" = true := by
      simp [classContains_renderHeading2]
    have hu : unparseElement P (renderHeading2 P e r) =
        transformHeadingElement P (renderHeading2 P e r) := by
      unfold unparseElement
      rw [if_neg (by rw [c0]; decide), if_pos (by rw [c1, c2]; rfl)]
    simp only [renderAs]
    rw [hu, transformHeadingElement_heading2 P _ c1 c2]
    exact ⟨rfl, kindOf_paragraph_of_remove_add e _ "heading2" hpar rfl, rfl⟩
  · have c0 : classContains (renderHeading3 P e r) "equation" = false :=
      classContains_false_of_not _ _ (by simp [classContains_renderHeading3, he])
    have c1 : classContains (renderHeading3 P e r) "heading1" = false :=
      classContains_false_of_not _ _ (by simp [classContains_renderHeading3, h1])
    have c2 : classContains (renderHeading3 P e r) "heading2" = false :=
      classContains_false_of_not _ _ (by simp [classContains_renderHeading3, h2])
    have c3 : classContains (renderHeading3 P e r) "heading3" = true := by
      simp [classContains_renderHeading3]
    have hu : unparseElement P (renderHeading3 P e r) =
        transformHeadingElement P (renderHeading3 P e r) := by
      unfold unparseElement
      rw [if_neg (by rw [c0]; decide), if_pos (by rw [c1, c2, c3]; rfl)]
    simp only [renderAs]
    rw [hu, transformHeadingElement_heading3 P _ c1 c2 c3]
    exact ⟨rfl, kindOf_paragraph_of_remove_add e _ "heading3" hpar rfl, rfl⟩
  · have c0 : classContains (renderEquation P e r) "equation" = true := by
      simp [classContains_renderEquation]
    have hu : unparseElement P (renderEquation P e r) =
        transformEquationElement P (renderEquation P e r) := by
      unfold unparseElement
      rw [if_pos c0]
    simp only [renderAs]
    rw [hu]
    exact ⟨rfl, kindOf_paragraph_of_remove_add e _ "equation" hpar rfl, rfl⟩

/-- C2 (as amended). For a paragraph block whose text parses to kind `k` with
source `r` (the trimmed remainder after the marker), parsing with
`handleFocusOut` and unparsing gives back an editable paragraph whose markup is
set to the marker followed by `r`: the whitespace around the text and between
marker and remainder is not restored.  Where the parser reads that markup as one
text node, the raw text is the marker followed by `r`, and it is the original
text when the original text already had that form. -/
theorem C2_parse_unparse_trimmed (P : Platform) (e : Element) (k : Kind) (r : Str)
    (hpar : kindOf e = .Paragraph) (hs : parseSpecOrder (textContent e) = some (k, r)) :
    r = trim (substring (trim (textContent e)) (marker k).length) ∧
    (unparseElement P (handleFocusOut P e)).childNodes = P.parseHTML (marker k ++ r) ∧
    kindOf (unparseElement P (handleFocusOut P e)) = .Paragraph ∧
    (unparseElement P (handleFocusOut P e)).contenteditable = some "true" ∧
    (P.parseHTML (marker k ++ r) = [.text (marker k ++ r)] →
      textContent (unparseElement P (handleFocusOut P e)) = marker k ++ r ∧
      (textContent e = marker k ++ r →
        textContent (unparseElement P (handleFocusOut P e)) = textContent e)) := by
  have hf := (focusOut_of_parseSpecOrder P e k r hpar hs).1
  have hu := unparse_renderAs P e k r hpar (parseSpecOrder_cases _ k r hs).1
  rw [hf]
  refine ⟨parseSpecOrder_source _ k r hs, hu.1, hu.2.1, hu.2.2, fun hp => ?_⟩
  have ht : textContent (unparseElement P (renderAs P e k r)) = marker k ++ r := by
    unfold textContent
    rw [hu.1, hp]
    simp [nodesText, nodeText]
  exact ⟨ht, fun hT => by rw [ht, hT]⟩

/-- Witness of C2 (as amended): the raw text `#Title` survives the round
trip. -/
theorem C2_parse_unparse_trimmed_witness :
    textContent (unparseElement browser (handleFocusOut browser
      (paragraph [.text "#Title".toList]))) = "#Title".toList :=
  ((C2_parse_unparse_trimmed browser (paragraph [.text "#Title".toList]) .Heading1
    "Title".toList (by decide) (by decide)).2.2.2.2 rfl).1

/-- Counterexample to C2: the raw text `# Title` parses to Heading1 with source
`Title` and unparses to the raw text `#Title`. -/
theorem C2_counterexample :
    parseSpecOrder (textContent (paragraph [.text "# Title".toList])) =
      some (.Heading1, "Title".toList) ∧
    kindOf (handleFocusOut browser (paragraph [.text "# Title".toList])) = .Heading1 ∧
    textContent (transformHeadingElement browser (handleFocusOut browser
      (paragraph [.text "# Title".toList]))) = "#Title".toList ∧
    textContent (transformHeadingElement browser (handleFocusOut browser
      (paragraph [.text "# Title".toList]))) ≠
      textContent (paragraph [.text "# Title".toList]) := by
  refine ⟨by decide, by decide, by decide, by decide⟩

/-- C3 (the code at the failing input). Backspace on the only block of the
document, which is empty: the block is removed, and the replacement `div` is
inserted after the editor container (its reference node is the container), so
the container is left with no block. -/
theorem C3_backspace_on_sole_block_empties_container :
    (handleBackspaceKey browser (docState [paragraph [.text [zwsp]]] 0 ⟨[0], 0⟩)
        (plainKey "Backspace" 0) 0).map
      (fun r => (r.1.blocks.length, r.1.following.map innerHTML, r.2)) =
      some (0, [[zwsp]], true) ∧
    (keydown flatLayout browser (docState [paragraph [.text [zwsp]]] 0 ⟨[0], 0⟩)
        (plainKey "Backspace" 0)).map
      (fun r => (r.1.blocks.length, r.1.following.map innerHTML, r.2)) =
      some (0, [[zwsp]], true) := by
  constructor <;> decide

/-- C8 (the code at the failing input). ArrowUp on the first line of a block
with no previous block, and ArrowDown on the last line of a block with no next
block: the listener has already called `preventDefault` and does nothing
more.  The state it leaves is the one its line probes produced: the text of
the block split into text nodes at the caret and at the measured edge, the
markup and the caret's character offset as before. -/
theorem C8_arrow_at_document_edge_prevents_default :
    findPreviousEditableDiv [paragraph [.text "abc".toList]] 0 = none ∧
    findNextEditableDiv [paragraph [.text "abc".toList]] 0 = none ∧
    keydown flatLayout browser (docState [paragraph [.text "abc".toList]] 0 ⟨[0], 1⟩)
      (plainKey "ArrowUp" 0) =
      some (docState [paragraph [.text [], .text "a".toList, .text "bc".toList]] 0 ⟨[1], 1⟩,
        true) ∧
    keydown flatLayout browser (docState [paragraph [.text "abc".toList]] 0 ⟨[0], 1⟩)
      (plainKey "ArrowDown" 0) =
      some (docState [paragraph [.text "a".toList, .text "bc".toList, .text []]] 0 ⟨[0], 1⟩,
        true) ∧
    innerHTML (paragraph [.text [], .text "a".toList, .text "bc".toList]) =
      innerHTML (paragraph [.text "abc".toList]) ∧
    innerHTML (paragraph [.text "a".toList, .text "bc".toList, .text []]) =
      innerHTML (paragraph [.text "abc".toList]) ∧
    getCaretCharacterOffsetWithin
      (docState [paragraph [.text [], .text "a".toList, .text "bc".toList]] 0 ⟨[1], 1⟩) 0 =
      getCaretCharacterOffsetWithin (docState [paragraph [.text "abc".toList]] 0 ⟨[0], 1⟩) 0 ∧
    getCaretCharacterOffsetWithin
      (docState [paragraph [.text "a".toList, .text "bc".toList, .text []]] 0 ⟨[0], 1⟩) 0 =
      getCaretCharacterOffsetWithin (docState [paragraph [.text "abc".toList]] 0 ⟨[0], 1⟩) 0 :=
  ⟨rfl, rfl, rfl, rfl, rfl, rfl, rfl, rfl⟩

section Listener
variable {α : Type} [LinearOrderedRing α]

/-- C6. While `isComposing` is set, a keydown of Enter (with or without Ctrl
or Cmd), Backspace, ArrowUp or ArrowDown on any target leaves the whole state
(block sequence, block contents and kinds, selection) unchanged and does not
call `preventDefault`. -/
theorem C6_composition_suppresses_keys (L : Layout α) (P : Platform) (s : EditorState α)
    (event : KeyEvent) (hcomp : s.isComposing = true)
    (hkey : event.key = "Enter" ∨ event.key = "Backspace" ∨ event.key = "ArrowUp" ∨
      event.key = "ArrowDown") :
    keydown L P s event = some (s, false) := by
  unfold keydown
  cases s.blocks[event.target]? with
  | none => rfl
  | some target =>
    simp only
    by_cases hrec : isRecognizedBlock target = true
    · rcases hkey with h | h | h | h <;> simp [hrec, h, hcomp]
    · simp [hrec]

/-- Witness of C6: Ctrl+Enter on a block while composing. -/
theorem C6_composition_suppresses_keys_witness :
    keydown flatLayout browser
      { docState [paragraph [.text "abc".toList]] 0 ⟨[0], 1⟩ with isComposing := true }
      { plainKey "Enter" 0 with ctrlKey := true } =
      some ({ docState [paragraph [.text "abc".toList]] 0 ⟨[0], 1⟩ with isComposing := true },
        false) :=
  C6_composition_suppresses_keys flatLayout browser _ _ rfl (Or.inl rfl)

end Listener

/-- C9 (as amended). `handleBackspaceKey` calls `preventDefault` and removes the
block exactly when the block's serialized content, after `trim()`, is the
empty string or the single zero-width placeholder; for every other content the
state is unchanged and the default action is not suppressed. -/
theorem C9_backspace_intercepts_trimmed_empty {α : Type} (P : Platform) (s : EditorState α)
    (event : KeyEvent) (editable : Nat) (e : Element)
    (he : s.blocks[editable]? = some e) (hkey : event.key = "Backspace") :
    ((trim (innerHTML e) = [] ∨ trim (innerHTML e) = [zwsp]) →
      ∃ s', handleBackspaceKey P s event editable = some (s', true) ∧
        s'.blocks = s.blocks.eraseIdx editable) ∧
    (¬ (trim (innerHTML e) = [] ∨ trim (innerHTML e) = [zwsp]) →
      handleBackspaceKey P s event editable = some (s, false)) := by
  constructor
  · intro hc
    unfold handleBackspaceKey
    rw [he]
    simp only [hkey, if_true, hc]
    cases findPreviousEditableDiv s.blocks editable with
    | some prev => exact ⟨_, rfl, rfl⟩
    | none => exact ⟨_, rfl, rfl⟩
  · intro hc
    unfold handleBackspaceKey
    rw [he]
    simp only [hkey, if_true, hc, if_false]

/-- Witness of C9 (as amended): a block holding one space is removed, a block
holding `a` is left alone. -/
theorem C9_backspace_intercepts_trimmed_empty_witness :
    (∃ s', handleBackspaceKey browser
        (docState [paragraph [.text "x".toList], paragraph [.text " ".toList]] 1 ⟨[0], 0⟩)
        (plainKey "Backspace" 1) 1 = some (s', true) ∧
      s'.blocks = [paragraph [.text "x".toList]]) ∧
    handleBackspaceKey browser (docState [paragraph [.text "a".toList]] 0 ⟨[0], 0⟩)
      (plainKey "Backspace" 0) 0 =
      some (docState [paragraph [.text "a".toList]] 0 ⟨[0], 0⟩, false) :=
  ⟨(C9_backspace_intercepts_trimmed_empty browser
      (docState [paragraph [.text "x".toList], paragraph [.text " ".toList]] 1 ⟨[0], 0⟩)
      (plainKey "Backspace" 1) 1 (paragraph [.text " ".toList]) rfl rfl).1
      (Or.inl (by decide)),
   (C9_backspace_intercepts_trimmed_empty browser
      (docState [paragraph [.text "a".toList]] 0 ⟨[0], 0⟩)
      (plainKey "Backspace" 0) 0 (paragraph [.text "a".toList]) rfl rfl).2 (by decide)⟩

/-- Counterexample to C9: a block whose serialized content is one space (not
empty, not the placeholder) is removed and the default action suppressed. -/
theorem C9_counterexample :
    innerHTML (paragraph [.text " ".toList]) = " ".toList ∧
    innerHTML (paragraph [.text " ".toList]) ≠ [] ∧
    innerHTML (paragraph [.text " ".toList]) ≠ [zwsp] ∧
    (handleBackspaceKey browser
        (docState [paragraph [.text "x".toList], paragraph [.text " ".toList]] 1 ⟨[0], 0⟩)
        (plainKey "Backspace" 1) 1).map (fun r => (r.1.blocks.map innerHTML, r.2)) =
      some (["x".toList], true) := by
  refine ⟨by decide, by decide, by decide, by decide⟩

/-! ## Split -/

theorem take_set_insert (bs : List Element) (i : Nat) (e e' n : Element)
    (he : bs[i]? = some e) :
    (bs.set i e').take (i + 1) ++ n :: (bs.set i e').drop (i + 1) =
      bs.take i ++ e' :: n :: bs.drop (i + 1) := by
  induction bs generalizing i with
  | nil => simp at he
  | cons b bs ih =>
    cases i with
    | zero => simp
    | succ j =>
      simp only [List.getElem?_cons_succ] at he
      simp only [List.set_cons_succ, List.take_succ_cons, List.drop_succ_cons,
        List.cons_append, ih j he]

/-- What `handleEnterKey` does when the selection starts inside the block. -/
theorem handleEnterKey_split {α : Type} (P : Platform) (s : EditorState α) (event : KeyEvent)
    (editable : Nat) (e : Element) (p : Point) (stop : Boundary)
    (he : s.blocks[editable]? = some e) (hkey : event.key = "Enter")
    (hsel : s.selection = some ⟨.inBlock editable p, stop⟩) :
    ∃ s', handleEnterKey P s event editable = some (s', true) ∧
      s'.blocks = s.blocks.take editable ++
        setInnerHTML P e (fragmentToHTML (cloneBefore e.childNodes p.path p.offset)) ::
        newEditableDiv P (fragmentToHTML (cloneAfter e.childNodes p.path p.offset)) ::
        s.blocks.drop (editable + 1) ∧
      s'.following = s.following ∧ s'.isComposing = s.isComposing := by
  unfold handleEnterKey
  rw [he]
  simp only [hkey, if_true, hsel, createNewEditableDiv]
  exact ⟨_, rfl, take_set_insert _ _ e _ _ he, rfl, rfl⟩

section EnterKey
variable {α : Type} [LinearOrderedRing α]

/-- C10 (as amended). With composition inactive, a keydown of Enter on a
recognized block holding the caret triggers the split (default prevented, the
block's content replaced by the before-fragment, a new block inserted after it
with the after-fragment) when Ctrl or Cmd is held; Enter pressed alone is not
handled by the listener: the state is unchanged and the default action is not
prevented. -/
theorem C10_enter_splits_only_with_modifier (L : Layout α) (P : Platform)
    (s : EditorState α) (event : KeyEvent) (target : Element) (p : Point) (stop : Boundary)
    (ht : s.blocks[event.target]? = some target) (hrec : isRecognizedBlock target = true)
    (hcomp : s.isComposing = false) (hkey : event.key = "Enter")
    (hsel : s.selection = some ⟨.inBlock event.target p, stop⟩) :
    ((event.ctrlKey = true ∨ event.metaKey = true) →
      ∃ s', keydown L P s event = some (s', true) ∧
        s'.blocks = s.blocks.take event.target ++
          setInnerHTML P target
            (fragmentToHTML (cloneBefore target.childNodes p.path p.offset)) ::
          newEditableDiv P (fragmentToHTML (cloneAfter target.childNodes p.path p.offset)) ::
          s.blocks.drop (event.target + 1)) ∧
    (event.ctrlKey = false → event.metaKey = false → keydown L P s event = some (s, false)) := by
  constructor
  · intro hmod
    obtain ⟨s', h1, h2, _⟩ := handleEnterKey_split P s event event.target target p stop ht hkey hsel
    refine ⟨s', ?_, h2⟩
    unfold keydown
    rw [ht]
    have hm : (event.ctrlKey || event.metaKey) = true := by
      rcases hmod with h | h <;> simp [h]
    simp only [hrec, hm, hkey, hcomp, h1]
    simp
  · intro hc hm
    unfold keydown
    rw [ht]
    simp [hrec, hc, hm, hkey]

/-- Witness of C10 (as amended): Ctrl+Enter in `abc` after `a` splits into `a`
and `bc`; Enter alone changes nothing. -/
theorem C10_enter_splits_only_with_modifier_witness :
    (∃ s', keydown flatLayout browser (docState [paragraph [.text "abc".toList]] 0 ⟨[0], 1⟩)
        { plainKey "Enter" 0 with ctrlKey := true } = some (s', true) ∧
      s'.blocks = [paragraph [.text "a".toList], paragraph [.text "bc".toList]]) ∧
    keydown flatLayout browser (docState [paragraph [.text "abc".toList]] 0 ⟨[0], 1⟩)
      (plainKey "Enter" 0) =
      some (docState [paragraph [.text "abc".toList]] 0 ⟨[0], 1⟩, false) :=
  ⟨(C10_enter_splits_only_with_modifier flatLayout browser
      (docState [paragraph [.text "abc".toList]] 0 ⟨[0], 1⟩)
      { plainKey "Enter" 0 with ctrlKey := true } (paragraph [.text "abc".toList]) ⟨[0], 1⟩ _
      rfl rfl rfl rfl rfl).1 (Or.inl rfl),
   (C10_enter_splits_only_with_modifier flatLayout browser
      (docState [paragraph [.text "abc".toList]] 0 ⟨[0], 1⟩)
      (plainKey "Enter" 0) (paragraph [.text "abc".toList]) ⟨[0], 1⟩ _
      rfl rfl rfl rfl rfl).2 rfl rfl⟩

/-- Counterexample to C10: Enter pressed alone on a recognized block, with
composition inactive, does not split: the document still has one block and the
default action is not prevented. -/
theorem C10_counterexample :
    (keydown flatLayout browser (docState [paragraph [.text "abc".toList]] 0 ⟨[0], 1⟩)
        (plainKey "Enter" 0)).map (fun r => (r.1.blocks.map innerHTML, r.2)) =
      some (["abc".toList], false) := by
  decide

end EnterKey

/-! ## Fragments -/

theorem serializeNodes_append (a b : List Node) :
    serializeNodes (a ++ b) = serializeNodes a ++ serializeNodes b := by
  induction a with
  | nil => simp [serializeNodes]
  | cons c cs ih => simp [serializeNodes, ih]

theorem nodesText_append (a b : List Node) :
    nodesText (a ++ b) = nodesText a ++ nodesText b := by
  induction a with
  | nil => simp [nodesText]
  | cons c cs ih => simp [nodesText, ih]

theorem escapeText_append (a b : Str) : escapeText (a ++ b) = escapeText a ++ escapeText b := by
  simp [escapeText]

theorem split_at_child (cs : List Node) (i : Nat) (c : Node) (h : cs[i]? = some c) :
    cs = cs.take i ++ c :: cs.drop (i + 1) := by
  induction cs generalizing i with
  | nil => simp at h
  | cons b bs ih =>
    cases i with
    | zero => simp at h; simp [h]
    | succ j =>
      simp only [List.getElem?_cons_succ] at h
      simp only [List.take_succ_cons, List.drop_succ_cons, List.cons_append]
      rw [← ih j h]

/-- Markup of the two fragments for a caret at the top level of the block. -/
theorem markup_split_top_level (cs : List Node) (p : Point) (h : atTopLevel cs p = true) :
    fragmentToHTML (cloneBefore cs p.path p.offset) ++
      fragmentToHTML (cloneAfter cs p.path p.offset) = serializeNodes cs := by
  obtain ⟨path, off⟩ := p
  unfold fragmentToHTML
  cases path with
  | nil =>
    simp only [cloneBefore, cloneAfter]
    rw [← serializeNodes_append, List.take_append_drop]
  | cons i rest =>
    simp only [atTopLevel] at h
    cases hc : cs[i]? with
    | none => simp [hc] at h
    | some c =>
      cases c with
      | elem tag ks => simp [hc] at h
      | text data =>
        simp only [cloneBefore, cloneAfter, hc]
        conv_rhs => rw [split_at_child cs i _ hc]
        simp only [serializeNodes_append, serializeNodes, serializeNode, List.append_nil,
          List.append_assoc]
        rw [← List.append_assoc (escapeText _), ← escapeText_append, List.take_append_drop]

/-- Text of the two fragments, for every caret. -/
theorem text_split (path : List Nat) (cs : List Node) (off : Nat) :
    nodesText (cloneBefore cs path off) ++ nodesText (cloneAfter cs path off) =
      nodesText cs := by
  induction path generalizing cs with
  | nil =>
    simp only [cloneBefore, cloneAfter]
    rw [← nodesText_append, List.take_append_drop]
  | cons i rest ih =>
    cases hc : cs[i]? with
    | none => simp [cloneBefore, cloneAfter, hc, nodesText]
    | some c =>
      cases c with
      | text data =>
        simp only [cloneBefore, cloneAfter, hc]
        conv_rhs => rw [split_at_child cs i _ hc]
        simp only [nodesText_append, nodesText, nodeText, List.append_nil, List.append_assoc]
        rw [← List.append_assoc (List.take _ _), List.take_append_drop]
      | elem tag ks =>
        simp only [cloneBefore, cloneAfter, hc]
        conv_rhs => rw [split_at_child cs i _ hc]
        simp only [nodesText_append, nodesText, nodeText, List.append_nil, List.append_assoc]
        rw [← List.append_assoc (nodesText (cloneBefore _ _ _)), ih ks]

/-- An empty after-markup leaves the whole markup in the before-fragment. -/
theorem markup_before_of_after_empty (cs : List Node) (p : Point)
    (h : fragmentToHTML (cloneAfter cs p.path p.offset) = []) :
    fragmentToHTML (cloneBefore cs p.path p.offset) = serializeNodes cs := by
  obtain ⟨path, off⟩ := p
  cases path with
  | nil =>
    have := markup_split_top_level cs ⟨[], off⟩ rfl
    rw [h, List.append_nil] at this
    exact this
  | cons i rest =>
    cases hc : cs[i]? with
    | none => simp [fragmentToHTML, cloneBefore, hc]
    | some c =>
      cases c with
      | text data =>
        have := markup_split_top_level cs ⟨i :: rest, off⟩ (by simp [atTopLevel, hc])
        rw [h, List.append_nil] at this
        exact this
      | elem tag ks =>
        simp [fragmentToHTML, cloneAfter, hc, serializeNodes, serializeNode] at h

theorem kindOf_newEditableDiv (P : Platform) (content : Str) :
    kindOf (newEditableDiv P content) = .Paragraph := by
  rw [kindOf_paragraph_iff]
  exact ⟨rfl, rfl, rfl, rfl⟩

/-- C5 (as amended). `handleEnterKey` with the caret at point `p` of block `b`
sets the content of `b` to the before-fragment and inserts a new paragraph
block right after `b` with the after-fragment (the placeholder U+200B when the
after-markup is empty); the document has one more block and the other blocks
keep content and order.  The markup of before followed by after is the markup
of `b` when the caret is at the top level of the block (in the block element
or in a text child); for every caret the text of before followed by the text
of after is the text of `b`. -/
theorem C5_split_partitions {α : Type} (P : Platform) (s : EditorState α) (event : KeyEvent)
    (editable : Nat) (e : Element) (p : Point) (stop : Boundary)
    (he : s.blocks[editable]? = some e) (hkey : event.key = "Enter")
    (hsel : s.selection = some ⟨.inBlock editable p, stop⟩) :
    ∃ s', handleEnterKey P s event editable = some (s', true) ∧
      s'.blocks = s.blocks.take editable ++
        setInnerHTML P e (fragmentToHTML (cloneBefore e.childNodes p.path p.offset)) ::
        newEditableDiv P (fragmentToHTML (cloneAfter e.childNodes p.path p.offset)) ::
        s.blocks.drop (editable + 1) ∧
      s'.blocks.length = s.blocks.length + 1 ∧
      kindOf (newEditableDiv P (fragmentToHTML (cloneAfter e.childNodes p.path p.offset))) =
        .Paragraph ∧
      (fragmentToHTML (cloneAfter e.childNodes p.path p.offset) = [] →
        (newEditableDiv P (fragmentToHTML (cloneAfter e.childNodes p.path p.offset))).childNodes =
          P.parseHTML [zwsp]) ∧
      (fragmentToHTML (cloneAfter e.childNodes p.path p.offset) ≠ [] →
        (newEditableDiv P (fragmentToHTML (cloneAfter e.childNodes p.path p.offset))).childNodes =
          P.parseHTML (fragmentToHTML (cloneAfter e.childNodes p.path p.offset))) ∧
      (atTopLevel e.childNodes p = true →
        fragmentToHTML (cloneBefore e.childNodes p.path p.offset) ++
          fragmentToHTML (cloneAfter e.childNodes p.path p.offset) = innerHTML e) ∧
      nodesText (cloneBefore e.childNodes p.path p.offset) ++
        nodesText (cloneAfter e.childNodes p.path p.offset) = textContent e := by
  obtain ⟨s', h1, h2, _⟩ := handleEnterKey_split P s event editable e p stop he hkey hsel
  have hlt : editable < s.blocks.length := by
    rcases Nat.lt_or_ge editable s.blocks.length with h | h
    · exact h
    · rw [List.getElem?_eq_none h] at he; cases he
  refine ⟨s', h1, h2, ?_, kindOf_newEditableDiv P _, ?_, ?_,
    markup_split_top_level e.childNodes p, text_split p.path e.childNodes p.offset⟩
  · rw [h2]
    simp only [List.length_append, List.length_cons, List.length_take, List.length_drop]
    omega
  · intro h
    simp [newEditableDiv, setInnerHTML, h]
  · intro h
    have hl : (fragmentToHTML (cloneAfter e.childNodes p.path p.offset)).length > 0 :=
      (length_pos_iff_ne_nil _).2 h
    simp only [newEditableDiv, setInnerHTML, if_pos hl]

/-- Witness of C5 (as amended): splitting `abc` after `a`. -/
theorem C5_split_partitions_witness :
    ∃ s', handleEnterKey browser (docState [paragraph [.text "abc".toList]] 0 ⟨[0], 1⟩)
        (plainKey "Enter" 0) 0 = some (s', true) ∧
      s'.blocks = [paragraph [.text "a".toList], paragraph [.text "bc".toList]] ∧
      "a".toList ++ "bc".toList = innerHTML (paragraph [.text "abc".toList]) := by
  obtain ⟨s', h1, h2, _, _, _, _, h3, _⟩ :=
    C5_split_partitions browser (docState [paragraph [.text "abc".toList]] 0 ⟨[0], 1⟩)
      (plainKey "Enter" 0) 0 (paragraph [.text "abc".toList]) ⟨[0], 1⟩ _ rfl rfl rfl
  exact ⟨s', h1, h2, h3 rfl⟩

/-- Counterexample to C5: with the caret inside the inline element of
`<b>hello</b>`, after `he`, the split leaves `<b>he</b>` in the block and
`<b>llo</b>` in the new block; their concatenation is not the original
content. -/
theorem C5_counterexample :
    validPoint [.elem "b" [.text "hello".toList]] [0, 0] 2 = true ∧
    (handleEnterKey browser
        (docState [paragraph [.elem "b" [.text "hello".toList]]] 0 ⟨[0, 0], 2⟩)
        (plainKey "Enter" 0) 0).map (fun r => (r.1.blocks.map innerHTML, r.2)) =
      some (["<b>he</b>".toList, "<b>llo</b>".toList], true) ∧
    innerHTML (paragraph [.elem "b" [.text "hello".toList]]) = "<b>hello</b>".toList ∧
    "<b>he</b>".toList ++ "<b>llo</b>".toList ≠
      innerHTML (paragraph [.elem "b" [.text "hello".toList]]) := by
  refine ⟨by decide, by decide, by decide, by decide⟩

/-! ## The column scan -/

section Scan
variable {α : Type} [LinearOrderedRing α]

/-- One scan step at a boundary point. -/
theorem scanOffset_point (L : Layout α) (blk : Nat) (tY X : α) (st : Scan α) (q : Point) :
    scanOffset L blk tY X q.path st q.offset =
      if |measuredY L blk q - tY| < 1 then
        match st with
        | none => some (|measuredX L blk q - X|, q)
        | some (d, _) => if |measuredX L blk q - X| < d then some (|measuredX L blk q - X|, q)
                         else st
      else st := by
  cases st <;> rfl

mutual
theorem traverse_eq_foldl (L : Layout α) (blk : Nat) (tY X : α) :
    ∀ (n : Node) (path : List Nat) (st : Scan α),
      traverse L blk tY X n path st =
        (nodePositions n path).foldl (fun st q => scanOffset L blk tY X q.path st q.offset) st
  | .text data, path, st => by
      unfold traverse nodePositions findClosestOffsetInTextNode
      by_cases h : data.length = 0
      · simp [h]
      · simp only [h, if_false, List.foldl_map]
  | .elem _ cs, path, st => by
      unfold traverse nodePositions
      exact traverseChildren_eq_foldl L blk tY X cs path 0 st
theorem traverseChildren_eq_foldl (L : Layout α) (blk : Nat) (tY X : α) :
    ∀ (cs : List Node) (path : List Nat) (k : Nat) (st : Scan α),
      traverseChildren L blk tY X cs path k st =
        (childPositions cs path k).foldl
          (fun st q => scanOffset L blk tY X q.path st q.offset) st
  | [], path, k, st => by
      unfold traverseChildren childPositions
      rfl
  | c :: cs, path, k, st => by
      unfold traverseChildren childPositions
      rw [List.foldl_append, ← traverse_eq_foldl L blk tY X c,
        traverseChildren_eq_foldl L blk tY X cs]
end

theorem scanInv_step (L : Layout α) (blk : Nat) (tY X : α) (seen : List Point) (st : Scan α)
    (q : Point) (h : ScanInv L blk tY X seen st) :
    ScanInv L blk tY X (seen ++ [q]) (scanOffset L blk tY X q.path st q.offset) := by
  rw [scanOffset_point]
  by_cases hy : |measuredY L blk q - tY| < 1
  · rw [if_pos hy]
    cases st with
    | none =>
      refine ⟨by simp, hy, rfl, ?_⟩
      intro r hr hry
      rcases List.mem_append.1 hr with hr | hr
      · exact absurd hry (h r hr)
      · simp at hr; subst hr; exact le_refl _
    | some dp =>
      obtain ⟨d, p⟩ := dp
      obtain ⟨hp, hpy, hd, hmin⟩ := h
      by_cases hlt : |measuredX L blk q - X| < d
      · simp only [if_pos hlt]
        refine ⟨by simp, hy, rfl, ?_⟩
        intro r hr hry
        rcases List.mem_append.1 hr with hr | hr
        · exact le_trans (le_of_lt hlt) (hmin r hr hry)
        · simp at hr; subst hr; exact le_refl _
      · simp only [if_neg hlt]
        refine ⟨List.mem_append_left _ hp, hpy, hd, ?_⟩
        intro r hr hry
        rcases List.mem_append.1 hr with hr | hr
        · exact hmin r hr hry
        · simp at hr; subst hr; exact not_lt.1 hlt
  · rw [if_neg hy]
    cases st with
    | none =>
      intro r hr
      rcases List.mem_append.1 hr with hr | hr
      · exact h r hr
      · simp at hr; subst hr; exact hy
    | some dp =>
      obtain ⟨d, p⟩ := dp
      obtain ⟨hp, hpy, hd, hmin⟩ := h
      refine ⟨List.mem_append_left _ hp, hpy, hd, ?_⟩
      intro r hr hry
      rcases List.mem_append.1 hr with hr | hr
      · exact hmin r hr hry
      · simp at hr; subst hr; exact absurd hry hy

theorem scanInv_foldl (L : Layout α) (blk : Nat) (tY X : α) (ps seen : List Point)
    (st : Scan α) (h : ScanInv L blk tY X seen st) :
    ScanInv L blk tY X (seen ++ ps)
      (ps.foldl (fun st q => scanOffset L blk tY X q.path st q.offset) st) := by
  induction ps generalizing seen st with
  | nil => simpa using h
  | cons q qs ih =>
    have := ih (seen ++ [q]) _ (scanInv_step L blk tY X seen st q h)
    simpa using this

/-- The scan of a whole block satisfies the invariant on its scanned points. -/
theorem scanInv_block (L : Layout α) (blk : Nat) (editable : Element) (tY X : α) :
    ScanInv L blk tY X (scannedPositions editable)
      (traverseChildren L blk tY X editable.childNodes [] 0 none) := by
  rw [traverseChildren_eq_foldl]
  have := scanInv_foldl L blk tY X (scannedPositions editable) [] none
    (by intro q hq; simp at hq)
  simpa [scannedPositions] using this

end Scan

/-! ## Focus loss -/

/-- C11. When the trimmed raw text is exactly a marker (`#`, `##`, `###` or
`/`: a marker followed by nothing but whitespace), and when the trimmed raw
text starts with no marker, `handleFocusOut` returns the block as it was: no
class added, `contenteditable` not changed, no stored source written, content
unchanged. -/
theorem C11_focusOut_empty_remainder_noop (P : Platform) (editable : Element) :
    (trim (textContent editable) = "#".toList → handleFocusOut P editable = editable) ∧
    (trim (textContent editable) = "##".toList → handleFocusOut P editable = editable) ∧
    (trim (textContent editable) = "###".toList → handleFocusOut P editable = editable) ∧
    (trim (textContent editable) = "/".toList → handleFocusOut P editable = editable) ∧
    (startsWith (trim (textContent editable)) "#".toList = false →
      startsWith (trim (textContent editable)) "/".toList = false →
      handleFocusOut P editable = editable) := by
  refine ⟨?_, ?_, ?_, ?_, ?_⟩
  · intro h
    unfold handleFocusOut
    rw [h]
    rfl
  · intro h
    unfold handleFocusOut
    rw [h]
    rfl
  · intro h
    unfold handleFocusOut
    rw [h]
    rfl
  · intro h
    unfold handleFocusOut
    rw [h]
    rfl
  · intro h1 hs
    have h2 := startsWith_hash_false_hash2 _ h1
    have h3 := startsWith_hash2_false_hash3 _ h2
    unfold handleFocusOut
    simp only [h1, h2, h3, hs, Bool.false_eq_true, if_false]

/-- Witness of C11: the raw texts `#`, ` ## `, `###`, `/ ` and `plain` leave a
paragraph block untouched. -/
theorem C11_focusOut_empty_remainder_noop_witness :
    handleFocusOut browser (paragraph [.text "#".toList]) = paragraph [.text "#".toList] ∧
    handleFocusOut browser (paragraph [.text " ## ".toList]) =
      paragraph [.text " ## ".toList] ∧
    handleFocusOut browser (paragraph [.text "###".toList]) = paragraph [.text "###".toList] ∧
    handleFocusOut browser (paragraph [.text "/ ".toList]) = paragraph [.text "/ ".toList] ∧
    handleFocusOut browser (paragraph [.text "plain".toList]) =
      paragraph [.text "plain".toList] :=
  ⟨(C11_focusOut_empty_remainder_noop browser (paragraph [.text "#".toList])).1 (by decide),
   (C11_focusOut_empty_remainder_noop browser (paragraph [.text " ## ".toList])).2.1
     (by decide),
   (C11_focusOut_empty_remainder_noop browser (paragraph [.text "###".toList])).2.2.1
     (by decide),
   (C11_focusOut_empty_remainder_noop browser (paragraph [.text "/ ".toList])).2.2.2.1
     (by decide),
   (C11_focusOut_empty_remainder_noop browser (paragraph [.text "plain".toList])).2.2.2.2
     (by decide) (by decide)⟩

/-! ## escapeHtml -/

theorem replaceAll_append (c : Char) (r a b : Str) :
    replaceAll c r (a ++ b) = replaceAll c r a ++ replaceAll c r b := by
  simp [replaceAll]

theorem escapeHtml_append (a b : Str) : escapeHtml (a ++ b) = escapeHtml a ++ escapeHtml b := by
  simp [escapeHtml, replaceAll_append]

theorem escapeHtml_single (x : Char) : escapeHtml [x] = escapeEntity x := by
  by_cases h1 : x = '&'
  · subst h1; decide
  · by_cases h2 : x = '<'
    · subst h2; decide
    · by_cases h3 : x = '>'
      · subst h3; decide
      · by_cases h4 : x = Char.ofNat 34
        · subst h4; decide
        · by_cases h5 : x = Char.ofNat 39
          · subst h5; decide
          · simp [escapeHtml, replaceAll, escapeEntity, h1, h2, h3, h4, h5]

/-- `escapeHtml` is the character-by-character image under `escapeEntity`. -/
theorem escapeHtml_eq_flatMap (s : Str) : escapeHtml s = s.flatMap escapeEntity := by
  induction s with
  | nil => rfl
  | cons x xs ih =>
    have : x :: xs = [x] ++ xs := rfl
    rw [this, escapeHtml_append, escapeHtml_single, ih]
    simp

theorem escapeEntity_no_special (x c : Char) (hc : c ∈ escapeEntity x) :
    c ≠ '<' ∧ c ≠ '>' ∧ c ≠ Char.ofNat 34 ∧ c ≠ Char.ofNat 39 := by
  unfold escapeEntity at hc
  split at hc
  · revert c; decide
  · split at hc
    · revert c; decide
    · split at hc
      · revert c; decide
      · split at hc
        · revert c; decide
        · split at hc
          · revert c; decide
          · simp at hc; subst hc
            exact ⟨by assumption, by assumption, by assumption, by assumption⟩

theorem amp_head_unique (t pre post : Str) (ht : '&' ∉ t)
    (h : '&' :: t = pre ++ '&' :: post) : pre = [] ∧ post = t := by
  cases pre with
  | nil =>
    simp at h
    exact ⟨rfl, h.symm⟩
  | cons a pre' =>
    simp at h
    exact absurd (h.2 ▸ (by simp : '&' ∈ pre' ++ '&' :: post)) ht

/-- An ampersand inside the image of one character begins an entity. -/
theorem escapeEntity_amp (x : Char) (pre post : Str)
    (h : escapeEntity x = pre ++ '&' :: post) : pre = [] ∧ post ∈ entityTails := by
  unfold escapeEntity at h
  split at h
  · obtain ⟨hp, ht⟩ := amp_head_unique "amp;".toList pre post (by decide) h
    exact ⟨hp, by rw [ht]; decide⟩
  · split at h
    · obtain ⟨hp, ht⟩ := amp_head_unique "lt;".toList pre post (by decide) h
      exact ⟨hp, by rw [ht]; decide⟩
    · split at h
      · obtain ⟨hp, ht⟩ := amp_head_unique "gt;".toList pre post (by decide) h
        exact ⟨hp, by rw [ht]; decide⟩
      · split at h
        · obtain ⟨hp, ht⟩ := amp_head_unique "quot;".toList pre post (by decide) h
          exact ⟨hp, by rw [ht]; decide⟩
        · split at h
          · obtain ⟨hp, ht⟩ := amp_head_unique "#039;".toList pre post (by decide) h
            exact ⟨hp, by rw [ht]; decide⟩
          · rename_i hne _ _ _ _
            have hm : '&' ∈ [x] := by rw [h]; simp
            simp at hm
            exact absurd hm.symm hne

theorem flatMap_amp_begins_entity (s pre post : Str)
    (h : s.flatMap escapeEntity = pre ++ '&' :: post) :
    ∃ t ∈ entityTails, t <+: post := by
  induction s generalizing pre with
  | nil => simp at h
  | cons x xs ih =>
    rw [List.flatMap_cons] at h
    rcases List.append_eq_append_iff.1 h with ⟨a, hpre, hrest⟩ | ⟨c, hx, hrest⟩
    · exact ih a hrest
    · cases c with
      | nil =>
        simp at hrest
        exact ih [] hrest.symm
      | cons d c' =>
        simp at hrest
        obtain ⟨hd, hpost⟩ := hrest
        subst hd
        obtain ⟨_, ht⟩ := escapeEntity_amp x pre c' hx
        exact ⟨c', ht, by rw [hpost]; exact List.prefix_append _ _⟩

/-- C13. `escapeHtml(s)` is the character-by-character image of `s` under the
map `&` to `&amp;`, `<` to `&lt;`, `>` to `&gt;`, `"` to `&quot;`, `'` to
`&#039;`, other characters unchanged (so no character is escaped twice); the
result holds none of `<`, `>`, `"`, `'`, and every `&` in it is followed by the
rest of one of the five entities. -/
theorem C13_escapeHtml_charwise (s : Str) :
    escapeHtml s = s.flatMap escapeEntity ∧
    (∀ c ∈ escapeHtml s, c ≠ '<' ∧ c ≠ '>' ∧ c ≠ Char.ofNat 34 ∧ c ≠ Char.ofNat 39) ∧
    (∀ pre post, escapeHtml s = pre ++ '&' :: post → ∃ t ∈ entityTails, t <+: post) := by
  refine ⟨escapeHtml_eq_flatMap s, ?_, ?_⟩
  · intro c hc
    rw [escapeHtml_eq_flatMap, List.mem_flatMap] at hc
    obtain ⟨x, _, hx⟩ := hc
    exact escapeEntity_no_special x c hx
  · intro pre post h
    rw [escapeHtml_eq_flatMap] at h
    exact flatMap_amp_begins_entity s pre post h

/-- Witness of C13 on the string `a&b<`: the result is `a&amp;b&lt;`, its
first character is none of the four, and its first `&` begins an entity. -/
theorem C13_escapeHtml_charwise_witness :
    escapeHtml "a&b<".toList = "a&amp;b&lt;".toList ∧
    ('a' ≠ '<' ∧ 'a' ≠ '>' ∧ 'a' ≠ Char.ofNat 34 ∧ 'a' ≠ Char.ofNat 39) ∧
    (∃ t ∈ entityTails, t <+: "amp;b&lt;".toList) :=
  ⟨by decide,
   (C13_escapeHtml_charwise "a&b<".toList).2.1 'a' (by decide),
   (C13_escapeHtml_charwise "a&b<".toList).2.2 "a".toList "amp;b&lt;".toList (by decide)⟩

/-! ## The focusout listener -/

theorem focusOutRenders_eq_isSome (e : Element) :
    focusOutRenders e = (parseSpecOrder (textContent e)).isSome := by
  unfold focusOutRenders parseSpecOrder
  simp only [length_pos_iff_ne_nil]
  cases h1 : startsWith (trim (textContent e)) "/".toList
  · cases h3 : startsWith (trim (textContent e)) "###".toList
    · cases h2 : startsWith (trim (textContent e)) "##".toList
      · cases h0 : startsWith (trim (textContent e)) "#".toList
        · simp only [Bool.false_eq_true, if_false, Option.isSome_none]
        · by_cases hr : trim (substring (trim (textContent e)) 1) = []
          · simp [hr]
          · simp [hr]
      · by_cases hr : trim (substring (trim (textContent e)) 2) = []
        · simp [hr]
        · simp [hr]
    · by_cases hr : trim (substring (trim (textContent e)) 3) = []
      · simp [hr]
      · simp [hr]
  · have h0 := startsWith_slash_hash _ h1
    have h2 := startsWith_hash_false_hash2 _ h0
    have h3 := startsWith_hash2_false_hash3 _ h2
    rw [h0, h2, h3]
    by_cases hr : trim (substring (trim (textContent e)) 1) = []
    · simp [hr]
    · simp [hr]

theorem set_getElem?_self (bs : List Element) (i : Nat) (e : Element) (h : bs[i]? = some e) :
    bs.set i e = bs := by
  induction bs generalizing i with
  | nil => rfl
  | cons b bs ih =>
    cases i with
    | zero => simp at h; simp [h]
    | succ j =>
      simp only [List.getElem?_cons_succ] at h
      simp only [List.set_cons_succ, ih j h]

/-- A block whose text does not parse is left as it is by `focusOutBlock`. -/
theorem focusOutBlock_of_parse_none {α : Type} (P : Platform) (s : EditorState α) (i : Nat)
    (t : Element) (ht : s.blocks[i]? = some t) (hp : parseSpecOrder (textContent t) = none) :
    focusOutBlock P s i = s := by
  have hr : focusOutRenders t = false := by rw [focusOutRenders_eq_isSome, hp]; rfl
  have he : handleFocusOut P t = t := by rw [handleFocusOut_eq_parseSpecOrder, hp]
  unfold focusOutBlock
  rw [ht]
  simp only [hr, Bool.false_eq_true, if_false, he, set_getElem?_self _ _ _ ht]

/-- C14 (as amended). A focus loss on a block carrying class `equation` and no
heading class leaves the state unchanged: `handleFocusOut` is not called.  The
listener calls `handleFocusOut` for a block with class `editable` and no kind
class, and also for every block carrying a heading class (`heading1`,
`heading2`, `heading3`); such a block is left unchanged when its trimmed text
does not start with a marker followed by a non-empty remainder. -/
theorem C14_focusout_on_rendered {α : Type} (P : Platform) (s : EditorState α) (target : Nat)
    (t : Element) (ht : s.blocks[target]? = some t) :
    (classContains t "equation" = true → classContains t "heading1" = false →
      classContains t "heading2" = false → classContains t "heading3" = false →
      focusoutCallsHandler t = false ∧ focusout P s target = s) ∧
    ((classContains t "heading1" = true ∨ classContains t "heading2" = true ∨
        classContains t "heading3" = true) →
      focusoutCallsHandler t = true ∧ focusout P s target = focusOutBlock P s target) ∧
    (classContains t "editable" = true → kindOf t = .Paragraph →
      focusoutCallsHandler t = true ∧ focusout P s target = focusOutBlock P s target) ∧
    (parseSpecOrder (textContent t) = none → focusout P s target = s) := by
  refine ⟨?_, ?_, ?_, ?_⟩
  · intro he h1 h2 h3
    constructor
    · simp [focusoutCallsHandler, he, h1, h2, h3]
    · unfold focusout
      rw [ht]
      simp [he, h1, h2, h3]
  · intro hh
    constructor
    · unfold focusoutCallsHandler
      rcases hh with h | h | h <;> simp [h]
    · unfold focusout
      rw [ht]
      rcases hh with h | h | h <;> simp [h]
  · intro hed hpar
    obtain ⟨he, h1, h2, h3⟩ := (kindOf_paragraph_iff t).1 hpar
    constructor
    · simp [focusoutCallsHandler, hed, he, h1, h2, h3]
    · unfold focusout
      rw [ht]
      simp [hed, he, h1, h2, h3]
  · intro hp
    have hb := focusOutBlock_of_parse_none P s target t ht hp
    unfold focusout
    rw [ht]
    simp only [hb]
    split
    · rfl
    · split <;> rfl

/-- Witness of C14 (as amended): a rendered equation is left alone by focus
loss; a rendered heading whose text is `Title` is handed to `handleFocusOut`
and stays as it is. -/
theorem C14_focusout_on_rendered_witness :
    (focusoutCallsHandler (handleFocusOut browser (paragraph [.text "/x^2".toList])) = false ∧
      focusout browser
        (docState [handleFocusOut browser (paragraph [.text "/x^2".toList])] 0 ⟨[], 0⟩) 0 =
        docState [handleFocusOut browser (paragraph [.text "/x^2".toList])] 0 ⟨[], 0⟩) ∧
    focusoutCallsHandler (handleFocusOut browser (paragraph [.text "# Title".toList])) = true ∧
    focusout browser
      (docState [handleFocusOut browser (paragraph [.text "# Title".toList])] 0 ⟨[], 0⟩) 0 =
      docState [handleFocusOut browser (paragraph [.text "# Title".toList])] 0 ⟨[], 0⟩ :=
  ⟨(C14_focusout_on_rendered browser
      (docState [handleFocusOut browser (paragraph [.text "/x^2".toList])] 0 ⟨[], 0⟩) 0
      (handleFocusOut browser (paragraph [.text "/x^2".toList])) rfl).1
      (by decide) (by decide) (by decide) (by decide),
   ((C14_focusout_on_rendered browser
      (docState [handleFocusOut browser (paragraph [.text "# Title".toList])] 0 ⟨[], 0⟩) 0
      (handleFocusOut browser (paragraph [.text "# Title".toList])) rfl).2.1
      (Or.inl (by decide))).1,
   (C14_focusout_on_rendered browser
      (docState [handleFocusOut browser (paragraph [.text "# Title".toList])] 0 ⟨[], 0⟩) 0
      (handleFocusOut browser (paragraph [.text "# Title".toList])) rfl).2.2.2 (by decide)⟩

/-- Counterexample to C14: the raw text `# # x` parses to a rendered Heading1
with stored source `# x`.  A focus loss on that rendered block calls
`handleFocusOut`, which parses the heading text again: the stored source
becomes `x` and the content `<h1>x</h1>`. -/
theorem C14_counterexample :
    kindOf (handleFocusOut browser (paragraph [.text "# # x".toList])) = .Heading1 ∧
    storedSource (handleFocusOut browser (paragraph [.text "# # x".toList])) =
      some "# x".toList ∧
    innerHTML (handleFocusOut browser (paragraph [.text "# # x".toList])) =
      "<h1># x</h1>".toList ∧
    focusoutCallsHandler (handleFocusOut browser (paragraph [.text "# # x".toList])) = true ∧
    (focusout browser
        (docState [handleFocusOut browser (paragraph [.text "# # x".toList])] 0 ⟨[], 0⟩)
        0).blocks.map (fun e => (kindOf e, storedSource e, innerHTML e)) =
      [(.Heading1, some "x".toList, "<h1>x</h1>".toList)] := by
  refine ⟨by decide, by decide, by decide, by decide, by decide⟩

/-! ## Navigation into a rendered block -/

theorem contains_classRemove_other (cl : List String) (c d : String)
    (h : cl.contains d = false) : (classRemove cl c).contains d = false := by
  cases hc : (classRemove cl c).contains d
  · rfl
  · rw [classRemove_contains] at hc
    rw [h] at hc
    exact absurd hc.1 (by decide)

theorem contains_classRemove_self (cl : List String) (c : String) :
    (classRemove cl c).contains c = false := by
  cases hc : (classRemove cl c).contains c
  · rfl
  · rw [classRemove_contains] at hc
    exact absurd rfl hc.2

/-- Unparse of a block rendered with one kind. -/
theorem unparse_rendered (P : Platform) (d : Element) (k : Kind) (src : Str)
    (hk : kindOf d = k) (hne : k ≠ .Paragraph) (hone : kindClassCount d = 1)
    (hsrc : storedSource d = some src) :
    (unparseElement P d).childNodes = P.parseHTML (marker k ++ src) ∧
    kindOf (unparseElement P d) = .Paragraph ∧
    (unparseElement P d).contenteditable = some "true" ∧
    kindData k (unparseElement P d) = none := by
  unfold storedSource at hsrc
  rw [hk] at hsrc
  cases hE : classContains d "equation" <;> cases h1 : classContains d "heading1" <;>
    cases h2 : classContains d "heading2" <;> cases h3 : classContains d "heading3" <;>
    simp [kindClassCount, List.filter, hE, h1, h2, h3] at hone
  · -- heading3 only
    have hk3 : k = .Heading3 := by rw [← hk]; simp [kindOf, hE, h1, h2, h3]
    subst hk3
    simp only at hsrc
    have hu : unparseElement P d = transformHeadingElement P d := by
      unfold unparseElement
      rw [if_neg (by rw [hE]; decide), if_pos (by rw [h1, h2, h3]; rfl)]
    rw [hu, transformHeadingElement_heading3 P d h1 h2 h3]
    refine ⟨by simp [hsrc, marker], ?_, rfl, rfl⟩
    rw [kindOf_paragraph_iff]
    simp only [classContains] at hE h1 h2 h3 ⊢
    exact ⟨contains_classRemove_other _ _ _ hE, contains_classRemove_other _ _ _ h1,
      contains_classRemove_other _ _ _ h2, contains_classRemove_self _ _⟩
  · -- heading2 only
    have hk2 : k = .Heading2 := by rw [← hk]; simp [kindOf, hE, h1, h2, h3]
    subst hk2
    simp only at hsrc
    have hu : unparseElement P d = transformHeadingElement P d := by
      unfold unparseElement
      rw [if_neg (by rw [hE]; decide), if_pos (by rw [h1, h2, h3]; rfl)]
    rw [hu, transformHeadingElement_heading2 P d h1 h2]
    refine ⟨by simp [hsrc, marker], ?_, rfl, rfl⟩
    rw [kindOf_paragraph_iff]
    simp only [classContains] at hE h1 h2 h3 ⊢
    exact ⟨contains_classRemove_other _ _ _ hE, contains_classRemove_other _ _ _ h1,
      contains_classRemove_self _ _, contains_classRemove_other _ _ _ h3⟩
  · -- heading1 only
    have hk1 : k = .Heading1 := by rw [← hk]; simp [kindOf, hE, h1, h2, h3]
    subst hk1
    simp only at hsrc
    have hu : unparseElement P d = transformHeadingElement P d := by
      unfold unparseElement
      rw [if_neg (by rw [hE]; decide), if_pos (by rw [h1, h2, h3]; rfl)]
    rw [hu, transformHeadingElement_heading1 P d h1]
    refine ⟨by simp [hsrc, marker], ?_, rfl, rfl⟩
    rw [kindOf_paragraph_iff]
    simp only [classContains] at hE h1 h2 h3 ⊢
    exact ⟨contains_classRemove_other _ _ _ hE, contains_classRemove_self _ _,
      contains_classRemove_other _ _ _ h2, contains_classRemove_other _ _ _ h3⟩
  · -- equation only
    have hke : k = .Equation := by rw [← hk]; simp [kindOf, hE]
    subst hke
    simp only at hsrc
    have hu : unparseElement P d = transformEquationElement P d := by
      unfold unparseElement
      rw [if_pos hE]
    rw [hu]
    refine ⟨by simp [transformEquationElement, setInnerHTML, hsrc, marker], ?_, rfl, rfl⟩
    rw [kindOf_paragraph_iff]
    simp only [classContains, transformEquationElement, setInnerHTML] at hE h1 h2 h3 ⊢
    exact ⟨contains_classRemove_self _ _, contains_classRemove_other _ _ _ h1,
      contains_classRemove_other _ _ _ h2, contains_classRemove_other _ _ _ h3⟩

/-! ## Caret offsets -/

theorem textNodeAt_head (c : Node) (cs : List Node) (rel : List Nat) :
    textNodeAt (c :: cs) (0 :: rel) = nodeTextAt c rel := by
  cases c <;> simp [textNodeAt, nodeTextAt]

theorem textNodeAt_tail (c : Node) (cs : List Node) (j : Nat) (rel : List Nat) :
    textNodeAt (c :: cs) ((j + 1) :: rel) = textNodeAt cs (j :: rel) := by
  simp [textNodeAt]

theorem textBefore_head (c : Node) (cs : List Node) (rel : List Nat) (off : Nat) :
    nodesText (cloneBefore (c :: cs) (0 :: rel) off) = nodeTextBefore c rel off := by
  cases c <;> simp [cloneBefore, nodeTextBefore, nodesText, nodeText]

theorem textBefore_tail (c : Node) (cs : List Node) (j : Nat) (rel : List Nat) (off : Nat) :
    nodesText (cloneBefore (c :: cs) ((j + 1) :: rel) off) =
      nodeText c ++ nodesText (cloneBefore cs (j :: rel) off) := by
  simp only [cloneBefore, List.getElem?_cons_succ]
  cases hc : cs[j]? with
  | none => simp [nodesText]
  | some n => cases n <;> simp [nodesText]

mutual
theorem nodeText_of_no_text : ∀ (n : Node), nodeHasText n = false → nodeText n = []
  | .text _, h => by simp [nodeHasText] at h
  | .elem _ cs, h => by
      unfold nodeHasText at h
      unfold nodeText
      exact nodesText_of_no_text cs h
theorem nodesText_of_no_text : ∀ (cs : List Node), nodesHaveText cs = false → nodesText cs = []
  | [], _ => by simp [nodesText]
  | c :: cs, h => by
      unfold nodesHaveText at h
      simp only [Bool.or_eq_false_iff] at h
      unfold nodesText
      rw [nodeText_of_no_text c h.1, nodesText_of_no_text cs h.2]
      rfl
end

mutual
/-- What `traverseNodes` returns on a node entered with `cur ≤ offset`. -/
theorem traverseNodes_spec (offset : Nat) :
    ∀ (n : Node) (path : List Nat) (cur : Nat), cur ≤ offset →
      (∀ p cur', traverseNodes offset n path cur = (some p, cur') →
        ∃ rel data, p.path = path ++ rel ∧ nodeTextAt n rel = some data ∧
          p.offset ≤ data.length ∧ cur + (nodeTextBefore n rel p.offset).length = offset) ∧
      (∀ cur', traverseNodes offset n path cur = (none, cur') →
        cur' = cur + (nodeText n).length ∧ cur' ≤ offset ∧
          (nodeHasText n = true → cur' < offset))
  | .text data, path, cur, hle => by
      unfold traverseNodes
      by_cases h : cur + data.length ≥ offset
      · rw [if_pos h]
        constructor
        · intro p cur' heq
          simp only [Prod.mk.injEq, Option.some.injEq] at heq
          obtain ⟨hp, _⟩ := heq
          subst hp
          refine ⟨[], data, by simp, by simp [nodeTextAt], ?_, ?_⟩
          · simp only; omega
          · simp only [nodeTextBefore, List.length_take]; omega
        · intro cur' heq
          simp at heq
      · rw [if_neg h]
        constructor
        · intro p cur' heq
          simp at heq
        · intro cur' heq
          simp only [Prod.mk.injEq, true_and] at heq
          subst heq
          refine ⟨by simp [nodeText], by omega, fun _ => by omega⟩
  | .elem tag cs, path, cur, hle => by
      unfold traverseNodes
      obtain ⟨hfound, hnone⟩ := traverseNodesChildren_spec offset cs path 0 cur hle
      constructor
      · intro p cur' heq
        obtain ⟨j, rel, data, hp, ht, ho, hc⟩ := hfound p cur' heq
        refine ⟨j :: rel, data, by simpa using hp, by simpa [nodeTextAt] using ht, ho, ?_⟩
        simpa [nodeTextBefore] using hc
      · intro cur' heq
        obtain ⟨h1, h2, h3⟩ := hnone cur' heq
        refine ⟨by simpa [nodeText] using h1, h2, fun ht => h3 (by simpa [nodeHasText] using ht)⟩
/-- What the child loop of `traverseNodes` returns, entered with
`cur ≤ offset`. -/
theorem traverseNodesChildren_spec (offset : Nat) :
    ∀ (cs : List Node) (path : List Nat) (k cur : Nat), cur ≤ offset →
      (∀ p cur', traverseNodesChildren offset cs path k cur = (some p, cur') →
        ∃ j rel data, p.path = path ++ (k + j) :: rel ∧ textNodeAt cs (j :: rel) = some data ∧
          p.offset ≤ data.length ∧
          cur + (nodesText (cloneBefore cs (j :: rel) p.offset)).length = offset) ∧
      (∀ cur', traverseNodesChildren offset cs path k cur = (none, cur') →
        cur' = cur + (nodesText cs).length ∧ cur' ≤ offset ∧
          (nodesHaveText cs = true → cur' < offset))
  | [], path, k, cur, hle => by
      unfold traverseNodesChildren
      constructor
      · intro p cur' heq
        simp at heq
      · intro cur' heq
        simp only [Prod.mk.injEq, true_and] at heq
        subst heq
        refine ⟨by simp [nodesText], hle, fun h => by simp [nodesHaveText] at h⟩
  | c :: cs, path, k, cur, hle => by
      unfold traverseNodesChildren
      obtain ⟨hfound, hnone⟩ := traverseNodes_spec offset c (path ++ [k]) cur hle
      cases hr : traverseNodes offset c (path ++ [k]) cur with
      | mk r cur1 =>
        cases r with
        | some q =>
          simp only
          constructor
          · intro p cur' heq
            simp only [Prod.mk.injEq, Option.some.injEq] at heq
            obtain ⟨hq, _⟩ := heq
            subst hq
            obtain ⟨rel, data, hp, ht, ho, hc⟩ := hfound q cur1 hr
            refine ⟨0, rel, data, by simpa using hp, ?_, ho, ?_⟩
            · rw [textNodeAt_head]; exact ht
            · rw [textBefore_head]; exact hc
          · intro cur' heq
            simp at heq
        | none =>
          simp only
          obtain ⟨h1, h2, h3⟩ := hnone cur1 hr
          obtain ⟨hfound', hnone'⟩ := traverseNodesChildren_spec offset cs path (k + 1) cur1 h2
          constructor
          · intro p cur' heq
            obtain ⟨j, rel, data, hp, ht, ho, hc⟩ := hfound' p cur' heq
            refine ⟨j + 1, rel, data, ?_, ?_, ho, ?_⟩
            · rw [hp]; congr 2; omega
            · rw [textNodeAt_tail]; exact ht
            · rw [textBefore_tail, List.length_append]; omega
          · intro cur' heq
            obtain ⟨h1', h2', h3'⟩ := hnone' cur' heq
            refine ⟨?_, h2', ?_⟩
            · simp only [nodesText, List.length_append]; omega
            · intro ht
              cases hcs : nodesHaveText cs with
              | true => exact h3' hcs
              | false =>
                have hc : nodeHasText c = true := by
                  simpa [nodesHaveText, hcs] using ht
                have := nodesText_of_no_text cs hcs
                rw [this] at h1'
                simp only [List.length_nil] at h1'
                have := h3 hc
                omega
end

theorem textBefore_length_le (cs : List Node) (path : List Nat) (off : Nat) :
    (nodesText (cloneBefore cs path off)).length ≤ (nodesText cs).length := by
  have h := congrArg List.length (text_split path cs off)
  rw [List.length_append] at h
  omega

/-- C15. For a block holding at least one text node, with total text length
`L`: for `k ≤ L`, after `setCaretPosition(block, k)` the selection is one
collapsed range at an offset inside a text node of the block and
`getCaretCharacterOffsetWithin(block)` returns `k`; for `k > L` the selection
is left empty. -/
theorem C15_caret_offset_roundtrip {α : Type} (s : EditorState α) (blk : Nat) (e : Element)
    (k : Nat) (he : s.blocks[blk]? = some e) (htext : nodesHaveText e.childNodes = true) :
    (k ≤ (textContent e).length →
      ∃ p data, (setCaretPosition s blk k).selection = collapsedAt blk p ∧
        textNodeAt e.childNodes p.path = some data ∧ p.offset ≤ data.length ∧
        getCaretCharacterOffsetWithin (setCaretPosition s blk k) blk = some k) ∧
    ((textContent e).length < k → (setCaretPosition s blk k).selection = none) := by
  obtain ⟨hfound, hnone⟩ := traverseNodesChildren_spec k e.childNodes [] 0 0 (Nat.zero_le k)
  cases hr : traverseNodesChildren k e.childNodes [] 0 0 with
  | mk r cur' =>
    cases r with
    | none =>
      obtain ⟨h1, _, h3⟩ := hnone cur' hr
      have hlt := h3 htext
      constructor
      · intro hk
        unfold textContent at hk
        omega
      · intro _
        unfold setCaretPosition
        rw [he]
        simp only [hr]
    | some p =>
      obtain ⟨j, rel, data, hp, ht, ho, hc⟩ := hfound p cur' hr
      have hpath : p.path = j :: rel := by simpa using hp
      have hsel : (setCaretPosition s blk k).selection = collapsedAt blk p := by
        unfold setCaretPosition
        rw [he]
        simp only [hr]
      have hblocks : (setCaretPosition s blk k).blocks = s.blocks := by
        unfold setCaretPosition
        rw [he]
        simp only [hr]
      rw [← hpath] at ht hc
      constructor
      · intro _
        refine ⟨p, data, hsel, ht, ho, ?_⟩
        unfold getCaretCharacterOffsetWithin
        rw [hblocks, he, hsel]
        simp only [collapsedAt, if_true]
        congr 1
        omega
      · intro hk
        have := textBefore_length_le e.childNodes p.path p.offset
        unfold textContent at hk
        omega

/-- Witness of C15 on the block `ab<b>cd</b>ef`: offset 3 lands in the text
node of the inline element at offset 1 and reads back as 3; offset 7 leaves no
selection. -/
theorem C15_caret_offset_roundtrip_witness :
    (∃ p data,
      (setCaretPosition
        (docState [paragraph [.text "ab".toList, .elem "b" [.text "cd".toList],
          .text "ef".toList]] 0 ⟨[], 0⟩) 0 3).selection = collapsedAt 0 p ∧
      textNodeAt [.text "ab".toList, .elem "b" [.text "cd".toList], .text "ef".toList]
        p.path = some data ∧ p.offset ≤ data.length ∧
      getCaretCharacterOffsetWithin
        (setCaretPosition
          (docState [paragraph [.text "ab".toList, .elem "b" [.text "cd".toList],
            .text "ef".toList]] 0 ⟨[], 0⟩) 0 3) 0 = some 3) ∧
    (setCaretPosition
      (docState [paragraph [.text "ab".toList, .elem "b" [.text "cd".toList],
        .text "ef".toList]] 0 ⟨[], 0⟩) 0 7).selection = none :=
  ⟨(C15_caret_offset_roundtrip
      (docState [paragraph [.text "ab".toList, .elem "b" [.text "cd".toList],
        .text "ef".toList]] 0 ⟨[], 0⟩) 0
      (paragraph [.text "ab".toList, .elem "b" [.text "cd".toList], .text "ef".toList]) 3
      rfl (by decide)).1 (by decide),
   (C15_caret_offset_roundtrip
      (docState [paragraph [.text "ab".toList, .elem "b" [.text "cd".toList],
        .text "ef".toList]] 0 ⟨[], 0⟩) 0
      (paragraph [.text "ab".toList, .elem "b" [.text "cd".toList], .text "ef".toList]) 7
      rfl (by decide)).2 (by decide)⟩

/-! ## Probes -/

theorem getElem?_set_same (bs : List Element) (i : Nat) (e x : Element) (h : bs[i]? = some e) :
    (bs.set i x)[i]? = some x := by
  induction bs generalizing i with
  | nil => simp at h
  | cons b bs ih =>
    cases i with
    | zero => simp
    | succ j =>
      simp only [List.getElem?_cons_succ] at h
      simp only [List.set_cons_succ, List.getElem?_cons_succ, ih j h]

theorem getElem?_set_other (bs : List Element) (i j : Nat) (x : Element) (h : i ≠ j) :
    (bs.set i x)[j]? = bs[j]? := by
  induction bs generalizing i j with
  | nil => simp
  | cons b bs ih =>
    cases i with
    | zero =>
      cases j with
      | zero => exact absurd rfl h
      | succ j => simp
    | succ i =>
      cases j with
      | zero => simp
      | succ j =>
        simp only [List.set_cons_succ, List.getElem?_cons_succ]
        exact ih i j (fun hij => h (by rw [hij]))

theorem probeBlock_blocks {α : Type} (s : EditorState α) (i : Nat) (p : Point) (e : Element)
    (h : s.blocks[i]? = some e) :
    (probeBlock s i p).blocks = s.blocks.set i (probeElement e p) := by
  unfold probeBlock
  rw [h]

section EdgeProbe
variable {α : Type} [LinearOrderedRing α]

theorem edgeY_eq (L : Layout α) (s : EditorState α) (blk : Nat) (e : Element) (edge : Edge)
    (hb : s.blocks[blk]? = some e) :
    edgeY L s blk edge =
      ((L.spanRect (.inBlock blk (edgePoint e edge))).2 - (L.elementRect blk).2,
       probeBlock s blk (edgePoint e edge)) := by
  cases edge
  · simp only [edgeY, getStartYPosition, hb, edgePoint]
  · simp only [edgeY, getEndYPosition, hb, edgePoint]

/-- `setCursorClosestToX` in terms of the probed block. -/
theorem setCursorClosestToX_eq (L : Layout α) (s : EditorState α) (blk : Nat) (e : Element)
    (X : α) (edge : Edge) (hb : s.blocks[blk]? = some e) :
    setCursorClosestToX L s blk X edge =
      { probeBlock s blk (edgePoint e edge) with
        selection := collapsedAt blk
          (closestPoint L blk (edgeProbed e edge) (edgeY L s blk edge).1 X edge) } := by
  have hp : (probeBlock s blk (edgePoint e edge)).blocks[blk]? = some (edgeProbed e edge) := by
    rw [probeBlock_blocks s blk _ e hb]
    exact getElem?_set_same _ _ e _ hb
  unfold setCursorClosestToX
  rw [hb]
  simp only [edgeY_eq L s blk e edge hb, hp]

/-- C7 (as amended). `setCursorClosestToX(block, X, edge)` first measures the
edge line with a probe that splits the first (`first`) or last (`last`) text
child of the block at its start or end, then scans the block as the probe left
it: the offsets `0..length` of every text node whose data is not empty
(`scannedPositions`).  If one of them lies on the edge line (its `y` within 1
pixel of the start-of-text `y` for `first`, of the end-of-text `y` for
`last`), the caret is placed at a scanned position on that line whose
`|x - X|` is minimal among all scanned positions on the line; if none does,
the caret is placed at the block's absolute start (`first`) or end (`last`). -/
theorem C7_closest_on_edge_line (L : Layout α) (s : EditorState α) (blk : Nat)
    (editable : Element) (X : α) (edge : Edge) (hb : s.blocks[blk]? = some editable) :
    (setCursorClosestToX L s blk X edge).blocks = s.blocks.set blk (edgeProbed editable edge) ∧
    (setCursorClosestToX L s blk X edge).selection =
      collapsedAt blk
        (closestPoint L blk (edgeProbed editable edge) (edgeY L s blk edge).1 X edge) ∧
    ((∃ q ∈ scannedPositions (edgeProbed editable edge),
        |measuredY L blk q - (edgeY L s blk edge).1| < 1) →
      closestPoint L blk (edgeProbed editable edge) (edgeY L s blk edge).1 X edge ∈
        scannedPositions (edgeProbed editable edge) ∧
      |measuredY L blk
          (closestPoint L blk (edgeProbed editable edge) (edgeY L s blk edge).1 X edge) -
        (edgeY L s blk edge).1| < 1 ∧
      ∀ q ∈ scannedPositions (edgeProbed editable edge),
        |measuredY L blk q - (edgeY L s blk edge).1| < 1 →
        |measuredX L blk
            (closestPoint L blk (edgeProbed editable edge) (edgeY L s blk edge).1 X edge) -
          X| ≤ |measuredX L blk q - X|) ∧
    ((∀ q ∈ scannedPositions (edgeProbed editable edge),
        ¬ |measuredY L blk q - (edgeY L s blk edge).1| < 1) →
      closestPoint L blk (edgeProbed editable edge) (edgeY L s blk edge).1 X edge =
        match edge with
        | .first => setCursorToStart (edgeProbed editable edge)
        | .last => setCursorToEnd (edgeProbed editable edge)) := by
  have hinv := scanInv_block L blk (edgeProbed editable edge) (edgeY L s blk edge).1 X
  have heq := setCursorClosestToX_eq L s blk editable X edge hb
  refine ⟨?_, ?_, ?_, ?_⟩
  · rw [heq]
    exact probeBlock_blocks s blk _ editable hb
  · rw [heq]
  · rintro ⟨q, hq, hqy⟩
    unfold closestPoint
    cases hst : traverseChildren L blk (edgeY L s blk edge).1 X
        (edgeProbed editable edge).childNodes [] 0 none with
    | none =>
      rw [hst] at hinv
      exact absurd hqy (hinv q hq)
    | some dp =>
      obtain ⟨d, p⟩ := dp
      rw [hst] at hinv
      obtain ⟨hp, hpy, hd, hmin⟩ := hinv
      refine ⟨hp, hpy, ?_⟩
      intro r hr hry
      have := hmin r hr hry
      rw [hd] at this
      exact this
  · intro hnone
    unfold closestPoint
    cases hst : traverseChildren L blk (edgeY L s blk edge).1 X
        (edgeProbed editable edge).childNodes [] 0 none with
    | none => cases edge <;> rfl
    | some dp =>
      obtain ⟨d, p⟩ := dp
      rw [hst] at hinv
      obtain ⟨hp, hpy, _, _⟩ := hinv
      exact absurd hpy (hnone p hp)

/-- Witness of C7 (as amended): a one-line block of ten characters laid out 17
pixels apart.  The edge probe leaves an empty text node before the text; the
position nearest to `X = 120` is offset 7 of the text (at 119 pixels), and the
caret lands there. -/
theorem C7_closest_on_edge_line_witness :
    (setCursorClosestToX monoLayout (docState [paragraph [.text "0123456789".toList]] 0 ⟨[], 0⟩)
      0 120 .first).blocks = [paragraph [.text [], .text "0123456789".toList]] ∧
    (setCursorClosestToX monoLayout (docState [paragraph [.text "0123456789".toList]] 0 ⟨[], 0⟩)
      0 120 .first).selection = collapsedAt 0 ⟨[1], 7⟩ ∧
    (closestPoint monoLayout 0 (edgeProbed (paragraph [.text "0123456789".toList]) .first)
        (edgeY monoLayout (docState [paragraph [.text "0123456789".toList]] 0 ⟨[], 0⟩) 0
          .first).1 120 .first ∈
        scannedPositions (edgeProbed (paragraph [.text "0123456789".toList]) .first) ∧
      |measuredY monoLayout 0
          (closestPoint monoLayout 0 (edgeProbed (paragraph [.text "0123456789".toList]) .first)
            (edgeY monoLayout (docState [paragraph [.text "0123456789".toList]] 0 ⟨[], 0⟩) 0
              .first).1 120 .first) -
        (edgeY monoLayout (docState [paragraph [.text "0123456789".toList]] 0 ⟨[], 0⟩) 0
          .first).1| < 1 ∧
      ∀ q ∈ scannedPositions (edgeProbed (paragraph [.text "0123456789".toList]) .first),
        |measuredY monoLayout 0 q -
            (edgeY monoLayout (docState [paragraph [.text "0123456789".toList]] 0 ⟨[], 0⟩) 0
              .first).1| < 1 →
          |measuredX monoLayout 0
              (closestPoint monoLayout 0
                (edgeProbed (paragraph [.text "0123456789".toList]) .first)
                (edgeY monoLayout (docState [paragraph [.text "0123456789".toList]] 0 ⟨[], 0⟩)
                  0 .first).1 120 .first) -
            120| ≤ |measuredX monoLayout 0 q - 120|) :=
  ⟨rfl, rfl,
   (C7_closest_on_edge_line monoLayout (docState [paragraph [.text "0123456789".toList]] 0 ⟨[], 0⟩)
      0 (paragraph [.text "0123456789".toList]) 120 .first rfl).2.2.1
      ⟨⟨[1], 0⟩, by decide, by decide⟩⟩

/-- Counterexample to C7: a block holding an empty inline element followed by
an empty text node, everything on one line at the origin.  The text position
`(text node, 0)` lies on the first line, but the scan skips the empty text
node and the caret is placed at `(b element, 0)`, which is not a text
position. -/
theorem C7_counterexample :
    (setCursorClosestToX flatLayout (docState [paragraph [.elem "b" [], .text []]] 0 ⟨[], 0⟩)
      0 0 .first).blocks = [paragraph [.elem "b" [], .text []]] ∧
    textPositions (paragraph [.elem "b" [], .text []]) = [⟨[1], 0⟩] ∧
    |measuredY flatLayout 0 ⟨[1], 0⟩ -
      (edgeY flatLayout (docState [paragraph [.elem "b" [], .text []]] 0 ⟨[], 0⟩) 0
        .first).1| < 1 ∧
    (setCursorClosestToX flatLayout (docState [paragraph [.elem "b" [], .text []]] 0 ⟨[], 0⟩)
      0 0 .first).selection = collapsedAt 0 ⟨[0], 0⟩ ∧
    (⟨[0], 0⟩ : Point) ∉ textPositions (paragraph [.elem "b" [], .text []]) := by
  refine ⟨rfl, by decide, by decide, rfl, by decide⟩

end EdgeProbe

/-! ## What the probes leave unchanged -/

theorem classContains_of_attrs (a b : Element) (h : attrs a = attrs b) (c : String) :
    classContains a c = classContains b c := by
  have : a.classList = b.classList := congrArg (fun t => t.1) h
  unfold classContains
  rw [this]

theorem kindOf_of_attrs (a b : Element) (h : attrs a = attrs b) : kindOf a = kindOf b := by
  unfold kindOf
  simp only [classContains_of_attrs a b h]

theorem kindClassCount_of_attrs (a b : Element) (h : attrs a = attrs b) :
    kindClassCount a = kindClassCount b := by
  have : classContains a = classContains b := funext (classContains_of_attrs a b h)
  unfold kindClassCount
  rw [this]

theorem storedSource_of_attrs (a b : Element) (h : attrs a = attrs b) :
    storedSource a = storedSource b := by
  unfold storedSource
  rw [kindOf_of_attrs a b h]
  have h1 : a.dataTitle = b.dataTitle := congrArg (fun t => t.2.2.1) h
  have h2 : a.dataHeading2 = b.dataHeading2 := congrArg (fun t => t.2.2.2.1) h
  have h3 : a.dataHeading3 = b.dataHeading3 := congrArg (fun t => t.2.2.2.2.1) h
  have h4 : a.dataLatex = b.dataLatex := congrArg (fun t => t.2.2.2.2.2) h
  rw [h1, h2, h3, h4]

theorem isRecognizedBlock_of_attrs (a b : Element) (h : attrs a = attrs b) :
    isRecognizedBlock a = isRecognizedBlock b := by
  unfold isRecognizedBlock
  simp only [classContains_of_attrs a b h]

theorem map_attrs_set (bs : List Element) (i : Nat) (e x : Element) (h : bs[i]? = some e)
    (hx : attrs x = attrs e) : (bs.set i x).map attrs = bs.map attrs := by
  induction bs generalizing i with
  | nil => rfl
  | cons b bs ih =>
    cases i with
    | zero =>
      simp only [List.getElem?_cons_zero, Option.some.injEq] at h
      simp only [List.set_cons_zero, List.map_cons, hx, h]
    | succ j =>
      simp only [List.getElem?_cons_succ] at h
      simp only [List.set_cons_succ, List.map_cons, ih j h]

theorem getElem?_of_map_attrs (bs bs' : List Element) (h : bs'.map attrs = bs.map attrs)
    (j : Nat) (d : Element) (hd : bs[j]? = some d) :
    ∃ d', bs'[j]? = some d' ∧ attrs d' = attrs d := by
  have := congrArg (fun l => l[j]?) h
  simp only [List.getElem?_map, hd, Option.map_some'] at this
  cases hj : bs'[j]? with
  | none => rw [hj] at this; simp at this
  | some d' =>
    rw [hj] at this
    simp only [Option.map_some', Option.some.injEq] at this
    exact ⟨d', rfl, this⟩

theorem length_of_map_attrs (bs bs' : List Element) (h : bs'.map attrs = bs.map attrs) :
    bs'.length = bs.length := by
  have := congrArg List.length h
  simpa using this

theorem findPreviousEditableDiv_congr (bs bs' : List Element)
    (h : bs'.map attrs = bs.map attrs) (k : Nat) :
    findPreviousEditableDiv bs' k = findPreviousEditableDiv bs k := by
  induction k with
  | zero => rfl
  | succ k ih =>
    unfold findPreviousEditableDiv
    cases hb : bs[k]? with
    | none =>
      have : bs'[k]? = none := by
        have := congrArg (fun l => l[k]?) h
        simp only [List.getElem?_map, hb, Option.map_none', Option.map_eq_none'] at this
        exact this
      rw [this]
      exact ih
    | some e =>
      obtain ⟨e', he', ha⟩ := getElem?_of_map_attrs bs bs' h k e hb
      rw [he']
      simp only [classContains_of_attrs e' e ha, ih]

theorem findNextFrom_congr (l l' : List Element) (h : l'.map attrs = l.map attrs) (k : Nat) :
    findNextFrom l' k = findNextFrom l k := by
  induction l generalizing l' k with
  | nil =>
    cases l' with
    | nil => rfl
    | cons a as => simp at h
  | cons b bs ih =>
    cases l' with
    | nil => simp at h
    | cons a as =>
      simp only [List.map_cons, List.cons.injEq] at h
      unfold findNextFrom
      rw [classContains_of_attrs a b h.1, ih as h.2]

theorem findNextEditableDiv_congr (bs bs' : List Element)
    (h : bs'.map attrs = bs.map attrs) (k : Nat) :
    findNextEditableDiv bs' k = findNextEditableDiv bs k := by
  unfold findNextEditableDiv
  apply findNextFrom_congr
  rw [List.map_drop, List.map_drop, h]

theorem probeBlock_attrs {α : Type} (s : EditorState α) (i : Nat) (p : Point) :
    (probeBlock s i p).blocks.map attrs = s.blocks.map attrs := by
  unfold probeBlock
  cases h : s.blocks[i]? with
  | none => rfl
  | some e => exact map_attrs_set _ _ e _ h rfl

theorem probeAt_attrs {α : Type} (s : EditorState α) (b : Boundary) :
    (probeAt s b).blocks.map attrs = s.blocks.map attrs := by
  cases b with
  | inBlock i p => exact probeBlock_attrs s i p
  | inContainer k => rfl
  | outside => rfl

section ProbeFrame
variable {α : Type} [LinearOrderedRing α]

theorem getCursorYPosition_attrs (L : Layout α) (s : EditorState α) (i : Nat) :
    (getCursorYPosition L s i).2.blocks.map attrs = s.blocks.map attrs := by
  unfold getCursorYPosition
  cases s.selection with
  | none => rfl
  | some r => exact probeAt_attrs s r.start

theorem getStartYPosition_attrs (L : Layout α) (s : EditorState α) (i : Nat) :
    (getStartYPosition L s i).2.blocks.map attrs = s.blocks.map attrs := by
  unfold getStartYPosition
  cases s.blocks[i]? with
  | none => rfl
  | some e => exact probeBlock_attrs s i _

theorem getEndYPosition_attrs (L : Layout α) (s : EditorState α) (i : Nat) :
    (getEndYPosition L s i).2.blocks.map attrs = s.blocks.map attrs := by
  unfold getEndYPosition
  cases s.blocks[i]? with
  | none => rfl
  | some e => exact probeBlock_attrs s i _

theorem isCursorOnFirstLine_attrs (L : Layout α) (s : EditorState α) (i : Nat) :
    (isCursorOnFirstLine L s i).2.blocks.map attrs = s.blocks.map attrs := by
  unfold isCursorOnFirstLine
  have h1 := getCursorYPosition_attrs L s i
  cases hr : getCursorYPosition L s i with
  | mk y s1 =>
    rw [hr] at h1
    cases y with
    | none => exact h1
    | some c =>
      simp only
      rw [getStartYPosition_attrs]
      exact h1

theorem isCursorOnLastLine_attrs (L : Layout α) (s : EditorState α) (i : Nat) :
    (isCursorOnLastLine L s i).2.blocks.map attrs = s.blocks.map attrs := by
  unfold isCursorOnLastLine
  have h1 := getCursorYPosition_attrs L s i
  cases hr : getCursorYPosition L s i with
  | mk y s1 =>
    rw [hr] at h1
    cases y with
    | none => exact h1
    | some c =>
      simp only
      rw [getEndYPosition_attrs]
      exact h1

theorem setCursorClosestToX_attrs (L : Layout α) (s : EditorState α) (blk : Nat) (X : α)
    (edge : Edge) :
    (setCursorClosestToX L s blk X edge).blocks.map attrs = s.blocks.map attrs := by
  cases hb : s.blocks[blk]? with
  | none =>
    unfold setCursorClosestToX
    rw [hb]
  | some e =>
    rw [setCursorClosestToX_eq L s blk e X edge hb]
    exact probeBlock_attrs s blk _

end ProbeFrame

/-! ## Focus changes -/

theorem focusOutBlock_frame {α : Type} (P : Platform) (s : EditorState α) (k : Nat) :
    (focusOutBlock P s k).blocks.length = s.blocks.length ∧
    ∀ j, j ≠ k → (focusOutBlock P s k).blocks[j]? = s.blocks[j]? := by
  unfold focusOutBlock
  cases s.blocks[k]? with
  | none => exact ⟨rfl, fun _ _ => rfl⟩
  | some t =>
    simp only
    split
    · exact ⟨List.length_set .., fun j hj => getElem?_set_other _ _ _ _ (Ne.symm hj)⟩
    · exact ⟨List.length_set .., fun j hj => getElem?_set_other _ _ _ _ (Ne.symm hj)⟩

theorem focusout_frame {α : Type} (P : Platform) (s : EditorState α) (k : Nat) :
    (focusout P s k).blocks.length = s.blocks.length ∧
    ∀ j, j ≠ k → (focusout P s k).blocks[j]? = s.blocks[j]? := by
  unfold focusout
  cases s.blocks[k]? with
  | none => exact ⟨rfl, fun _ _ => rfl⟩
  | some t =>
    simp only
    split
    · exact focusOutBlock_frame P s k
    · split
      · exact focusOutBlock_frame P s k
      · exact ⟨rfl, fun _ _ => rfl⟩

/-- `focus()` on a focusable block of the container. -/
theorem focusElement_block {α : Type} (P : Platform) (s : EditorState α) (j : Nat)
    (e : Element) (he : s.blocks[j]? = some e) (hf : e.contenteditable = some "true") :
    (focusElement P s (.block j)).blocks.length = s.blocks.length ∧
    (focusElement P s (.block j)).blocks[j]? = some e ∧
    (focusElement P s (.block j)).focused = some (.block j) := by
  have hfoc : isFocusable e = true := by simp [isFocusable, hf]
  unfold focusElement
  simp only [elementAt, he, hfoc, if_true]
  by_cases hcur : s.focused = some (.block j)
  · rw [if_pos hcur]
    exact ⟨rfl, he, hcur⟩
  · rw [if_neg hcur]
    cases hfo : s.focused with
    | none => exact ⟨rfl, he, rfl⟩
    | some r =>
      cases r with
      | block k =>
        have hk : j ≠ k := by
          intro h
          apply hcur
          rw [hfo, h]
        obtain ⟨hl, hother⟩ := focusout_frame P s k
        exact ⟨hl, by simp only; rw [hother j hk]; exact he, rfl⟩
      | container => exact ⟨rfl, he, rfl⟩
      | following k => exact ⟨rfl, he, rfl⟩

/-- The arrow branches hand a block with a kind class to `unparseElement`,
move focus to it and collapse the selection at its end. -/
theorem enterRenderedBlock_spec {α : Type} (P : Platform) (s : EditorState α) (j : Nat)
    (d : Element) (hd : s.blocks[j]? = some d) (hk : kindOf d ≠ .Paragraph)
    (hce : (unparseElement P d).contenteditable = some "true") :
    (enterRenderedBlock P s j).blocks.length = s.blocks.length ∧
    (enterRenderedBlock P s j).blocks[j]? = some (unparseElement P d) ∧
    (enterRenderedBlock P s j).focused = some (.block j) ∧
    (enterRenderedBlock P s j).selection =
      collapsedAt j (setCursorToEnd (unparseElement P d)) := by
  have key : ∀ (e : Element), e = unparseElement P d →
      ∀ (s1 : EditorState α), s1.blocks = s.blocks.set j e →
      (match (focusElement P s1 (.block j)).blocks[j]? with
        | none => focusElement P s1 (.block j)
        | some current =>
            { focusElement P s1 (.block j) with
              selection := collapsedAt j (setCursorToEnd current) }).blocks.length =
        s.blocks.length ∧
      (match (focusElement P s1 (.block j)).blocks[j]? with
        | none => focusElement P s1 (.block j)
        | some current =>
            { focusElement P s1 (.block j) with
              selection := collapsedAt j (setCursorToEnd current) }).blocks[j]? = some e ∧
      (match (focusElement P s1 (.block j)).blocks[j]? with
        | none => focusElement P s1 (.block j)
        | some current =>
            { focusElement P s1 (.block j) with
              selection := collapsedAt j (setCursorToEnd current) }).focused =
        some (.block j) ∧
      (match (focusElement P s1 (.block j)).blocks[j]? with
        | none => focusElement P s1 (.block j)
        | some current =>
            { focusElement P s1 (.block j) with
              selection := collapsedAt j (setCursorToEnd current) }).selection =
        collapsedAt j (setCursorToEnd e) := by
    intro e he s1 hs1
    have h1 : s1.blocks[j]? = some e := by
      rw [hs1]; exact getElem?_set_same _ _ d _ hd
    obtain ⟨hl, hj, hf⟩ := focusElement_block P s1 j e h1 (by rw [he]; exact hce)
    rw [hj]
    refine ⟨?_, hj, hf, rfl⟩
    show (focusElement P s1 (.block j)).blocks.length = s.blocks.length
    rw [hl, hs1, List.length_set]
  unfold enterRenderedBlock
  rw [hd]
  simp only
  by_cases hE : classContains d "equation" = true
  · rw [if_pos hE]
    unfold transformEquationToEditableDiv
    rw [hd]
    have hu : transformEquationElement P d = unparseElement P d := by
      unfold unparseElement
      rw [if_pos hE]
    simp only [hu]
    exact key _ rfl _ rfl
  · rw [if_neg hE]
    by_cases hH : (classContains d "heading1" || classContains d "heading2" ||
        classContains d "heading3") = true
    · rw [if_pos hH]
      unfold transformHeadingToEditableDiv
      rw [hd]
      have hu : transformHeadingElement P d = unparseElement P d := by
        unfold unparseElement
        rw [if_neg hE, if_pos hH]
      simp only [hu]
      exact key _ rfl _ rfl
    · exfalso
      apply hk
      rw [kindOf_paragraph_iff]
      simp only [Bool.or_eq_true, not_or, Bool.not_eq_true] at hH
      exact ⟨classContains_false_of_not _ _ hE, hH.1.1, hH.1.2, hH.2⟩

section Navigation
variable {α : Type} [LinearOrderedRing α]

/-- Landing on a rendered block: `setCursorClosestToX` on it, then the
transform its class selects. -/
theorem entered_at_tail (L : Layout α) (P : Platform) (s0 s : EditorState α) (j : Nat)
    (d : Element) (k : Kind) (src : Str) (X : α) (edge : Edge)
    (hmap : s.blocks.map attrs = s0.blocks.map attrs)
    (hd : s0.blocks[j]? = some d) (hk : kindOf d = k) (hne : k ≠ .Paragraph)
    (hone : kindClassCount d = 1) (hsrc : storedSource d = some src) :
    EnteredAtTail P s0 j k src
      (some (enterRenderedBlock P (setCursorClosestToX L s j X edge) j, true)) := by
  have hmap2 : (setCursorClosestToX L s j X edge).blocks.map attrs = s0.blocks.map attrs := by
    rw [setCursorClosestToX_attrs, hmap]
  obtain ⟨d2, hd2, ha⟩ := getElem?_of_map_attrs _ _ hmap2 j d hd
  have hk2 : kindOf d2 = k := by rw [kindOf_of_attrs d2 d ha, hk]
  have hone2 : kindClassCount d2 = 1 := by rw [kindClassCount_of_attrs d2 d ha, hone]
  have hsrc2 : storedSource d2 = some src := by rw [storedSource_of_attrs d2 d ha, hsrc]
  obtain ⟨hc, hp, hce, hdata⟩ := unparse_rendered P d2 k src hk2 hne hone2 hsrc2
  obtain ⟨hl, hj, hf, hsel⟩ := enterRenderedBlock_spec P _ j d2 hd2
    (by rw [hk2]; exact hne) hce
  refine ⟨_, unparseElement P d2, rfl, ?_, hj, hp, hdata, hce, hc, hf, hsel, ?_⟩
  · rw [hl]
    exact length_of_map_attrs _ _ hmap2
  · intro hparse
    rw [hsel]
    unfold setCursorToEnd
    rw [hc, hparse]
    rfl

/-- C12 (as amended). With composition inactive, when an ArrowUp on the first
line (or an ArrowDown on the last line) of a recognized block lands on an
adjacent block that is rendered with exactly one kind class (Equation or
Heading1/2/3, with its stored source), the handler prevents the default action
and leaves that block editable: kind class and stored-source attribute
removed, `contenteditable` true, its markup the kind's marker followed by the
stored source, focus on it and the selection collapsed at the end of the
block, in both directions. -/
theorem C12_navigation_enters_rendered_at_tail (L : Layout α) (P : Platform)
    (s : EditorState α) (event : KeyEvent) (target : Element) (j : Nat) (d : Element)
    (k : Kind) (src : Str)
    (ht : s.blocks[event.target]? = some target) (hrec : isRecognizedBlock target = true)
    (hcomp : s.isComposing = false)
    (hd : s.blocks[j]? = some d) (hk : kindOf d = k) (hne : k ≠ .Paragraph)
    (hone : kindClassCount d = 1) (hsrc : storedSource d = some src) :
    (event.key = "ArrowUp" → (isCursorOnFirstLine L s event.target).1 = true →
      findPreviousEditableDiv s.blocks event.target = some j →
      EnteredAtTail P s j k src (keydown L P s event)) ∧
    (event.key = "ArrowDown" → (isCursorOnLastLine L s event.target).1 = true →
      findNextEditableDiv s.blocks event.target = some j →
      EnteredAtTail P s j k src (keydown L P s event)) := by
  constructor
  · intro hkey hline hadj
    have hmap := isCursorOnFirstLine_attrs L s event.target
    have hadj' : findPreviousEditableDiv (isCursorOnFirstLine L s event.target).2.blocks
        event.target = some j := by
      rw [findPreviousEditableDiv_congr _ _ hmap, hadj]
    have := entered_at_tail L P s (isCursorOnFirstLine L s event.target).2 j d k src
      s.desiredX .last hmap hd hk hne hone hsrc
    unfold keydown
    rw [ht]
    simpa [hrec, hkey, hcomp, hline, hadj'] using this
  · intro hkey hline hadj
    have hmap := isCursorOnLastLine_attrs L s event.target
    have hadj' : findNextEditableDiv (isCursorOnLastLine L s event.target).2.blocks
        event.target = some j := by
      rw [findNextEditableDiv_congr _ _ hmap, hadj]
    have := entered_at_tail L P s (isCursorOnLastLine L s event.target).2 j d k src
      s.desiredX .first hmap hd hk hne hone hsrc
    unfold keydown
    rw [ht]
    simpa [hrec, hkey, hcomp, hline, hadj'] using this

/-- Witness of C12 (as amended): ArrowUp from the block below, and ArrowDown
from the block above, onto a rendered Heading1 with stored source `Title`. -/
theorem C12_navigation_enters_rendered_at_tail_witness :
    EnteredAtTail browser
      (docState [handleFocusOut browser (paragraph [.text "# Title".toList]),
        paragraph [.text "abc".toList]] 1 ⟨[0], 1⟩) 0 .Heading1 "Title".toList
      (keydown flatLayout browser
        (docState [handleFocusOut browser (paragraph [.text "# Title".toList]),
          paragraph [.text "abc".toList]] 1 ⟨[0], 1⟩) (plainKey "ArrowUp" 1)) ∧
    EnteredAtTail browser
      (docState [paragraph [.text "abc".toList],
        handleFocusOut browser (paragraph [.text "# Title".toList])] 0 ⟨[0], 1⟩) 1 .Heading1
      "Title".toList
      (keydown flatLayout browser
        (docState [paragraph [.text "abc".toList],
          handleFocusOut browser (paragraph [.text "# Title".toList])] 0 ⟨[0], 1⟩)
        (plainKey "ArrowDown" 0)) :=
  ⟨(C12_navigation_enters_rendered_at_tail flatLayout browser
      (docState [handleFocusOut browser (paragraph [.text "# Title".toList]),
        paragraph [.text "abc".toList]] 1 ⟨[0], 1⟩) (plainKey "ArrowUp" 1)
      (paragraph [.text "abc".toList]) 0
      (handleFocusOut browser (paragraph [.text "# Title".toList])) .Heading1 "Title".toList
      rfl (by decide) rfl rfl (by decide) (by decide) (by decide) (by decide)).1
      rfl (by decide) (by decide),
   (C12_navigation_enters_rendered_at_tail flatLayout browser
      (docState [paragraph [.text "abc".toList],
        handleFocusOut browser (paragraph [.text "# Title".toList])] 0 ⟨[0], 1⟩)
      (plainKey "ArrowDown" 0)
      (paragraph [.text "abc".toList]) 1
      (handleFocusOut browser (paragraph [.text "# Title".toList])) .Heading1 "Title".toList
      rfl (by decide) rfl rfl (by decide) (by decide) (by decide) (by decide)).2
      rfl (by decide) (by decide)⟩

/-- Counterexample to C12: the raw text `# ## x` renders to a Heading1 with
stored source `## x`; a focus loss on that rendered heading (the second branch
of the `focusout` listener) parses its text again and adds the class
`heading2` with stored source `x`.  ArrowUp from the block below lands on this
rendered block: the handler removes `heading1` and `data-title` and sets the
content to `### x`, but the block keeps the kind class `heading2` and the
stored source `x`. -/
theorem C12_counterexample :
    (focusout browser
      (docState [handleFocusOut browser (paragraph [.text "# ## x".toList]),
        paragraph [.text "abc".toList]] 0 ⟨[], 0⟩) 0).blocks =
      [handleFocusOut browser (handleFocusOut browser (paragraph [.text "# ## x".toList])),
        paragraph [.text "abc".toList]] ∧
    kindOf (handleFocusOut browser (handleFocusOut browser
      (paragraph [.text "# ## x".toList]))) = .Heading1 ∧
    storedSource (handleFocusOut browser (handleFocusOut browser
      (paragraph [.text "# ## x".toList]))) = some "## x".toList ∧
    findPreviousEditableDiv
      [handleFocusOut browser (handleFocusOut browser (paragraph [.text "# ## x".toList])),
        paragraph [.text "abc".toList]] 1 = some 0 ∧
    (keydown flatLayout browser
        (docState
          [handleFocusOut browser (handleFocusOut browser (paragraph [.text "# ## x".toList])),
            paragraph [.text "abc".toList]] 1 ⟨[0], 1⟩)
        (plainKey "ArrowUp" 1)).map
      (fun r => (r.1.blocks.map
        (fun e => (kindOf e, e.classList, e.dataHeading2, e.contenteditable, innerHTML e)),
        r.2)) =
      some ([(.Heading2, ["editable", "heading2"], some "x".toList, some "true",
              "### x".toList),
             (.Paragraph, ["editable"], none, some "true", "abc".toList)], true) := by
  refine ⟨rfl, by decide, by decide, by decide, rfl⟩

end Navigation

/-! ## Split followed by Backspace -/

theorem getElem?_after_insert (bs : List Element) (i : Nat) (a b : Element)
    (hlt : i < bs.length) :
    (bs.take i ++ a :: b :: bs.drop (i + 1))[i + 1]? = some b := by
  induction bs generalizing i with
  | nil => simp at hlt
  | cons c cs ih =>
    cases i with
    | zero => simp
    | succ j =>
      simp only [List.length_cons, Nat.add_lt_add_iff_right] at hlt
      simpa using ih j hlt

theorem getElem?_before_insert (bs : List Element) (i : Nat) (a b : Element)
    (hlt : i < bs.length) :
    (bs.take i ++ a :: b :: bs.drop (i + 1))[i]? = some a := by
  induction bs generalizing i with
  | nil => simp at hlt
  | cons c cs ih =>
    cases i with
    | zero => simp
    | succ j =>
      simp only [List.length_cons, Nat.add_lt_add_iff_right] at hlt
      simpa using ih j hlt

theorem set_before_insert (bs : List Element) (i : Nat) (a a' b : Element)
    (hlt : i < bs.length) :
    (bs.take i ++ a :: b :: bs.drop (i + 1)).set i a' =
      bs.take i ++ a' :: b :: bs.drop (i + 1) := by
  induction bs generalizing i with
  | nil => simp at hlt
  | cons c cs ih =>
    cases i with
    | zero => simp
    | succ j =>
      simp only [List.length_cons, Nat.add_lt_add_iff_right] at hlt
      simpa using ih j hlt

theorem eraseIdx_after_insert (bs : List Element) (i : Nat) (a b : Element)
    (hlt : i < bs.length) :
    (bs.take i ++ a :: b :: bs.drop (i + 1)).eraseIdx (i + 1) = bs.set i a := by
  induction bs generalizing i with
  | nil => simp at hlt
  | cons c cs ih =>
    cases i with
    | zero => simp
    | succ j =>
      simp only [List.length_cons, Nat.add_lt_add_iff_right] at hlt
      simpa using ih j hlt

/-- What `handleEnterKey` does when the selection starts inside the block,
with the scheduled caret placement and the focused element. -/
theorem handleEnterKey_state {α : Type} (P : Platform) (s : EditorState α) (event : KeyEvent)
    (editable : Nat) (e : Element) (p : Point) (stop : Boundary)
    (he : s.blocks[editable]? = some e) (hkey : event.key = "Enter")
    (hsel : s.selection = some ⟨.inBlock editable p, stop⟩) :
    ∃ s', handleEnterKey P s event editable = some (s', true) ∧
      s'.blocks = s.blocks.take editable ++
        setInnerHTML P e (fragmentToHTML (cloneBefore e.childNodes p.path p.offset)) ::
        newEditableDiv P (fragmentToHTML (cloneAfter e.childNodes p.path p.offset)) ::
        s.blocks.drop (editable + 1) ∧
      s'.deferred = s.deferred ++ [⟨.block (editable + 1), .first⟩] ∧
      s'.focused = s.focused.map (NodeRef.afterInsert (editable + 1)) := by
  unfold handleEnterKey
  rw [he]
  simp only [hkey, if_true, hsel, createNewEditableDiv]
  exact ⟨_, rfl, take_set_insert _ _ e _ _ he, rfl, rfl⟩

/-- The `focusout` listener on a block: the block is replaced by what
`handleFocusOut` leaves of it when the listener calls it; nothing is
scheduled and the focused element is not changed. -/
theorem focusout_blocks {α : Type} (P : Platform) (s : EditorState α) (k : Nat) (t : Element)
    (ht : s.blocks[k]? = some t) :
    (focusout P s k).blocks =
      s.blocks.set k (if focusoutCallsHandler t then handleFocusOut P t else t) ∧
    (focusout P s k).deferred = s.deferred ∧ (focusout P s k).focused = s.focused := by
  have hb : (focusOutBlock P s k).blocks = s.blocks.set k (handleFocusOut P t) ∧
      (focusOutBlock P s k).deferred = s.deferred ∧
      (focusOutBlock P s k).focused = s.focused := by
    unfold focusOutBlock
    rw [ht]
    by_cases hr : focusOutRenders t = true
    · simp [hr]
    · simp [hr]
  unfold focusout focusoutCallsHandler
  rw [ht]
  simp only
  split
  · simpa using hb
  · split
    · simpa using hb
    · simp [set_getElem?_self _ _ _ ht]

/-- The timer callback of a caret placement on block `j` while block `k` has
focus: `focusout` runs on `k`, then focus and caret are on `j`. -/
theorem runDeferred_to_block {α : Type} (P : Platform) (s : EditorState α) (j k : Nat)
    (pos : Edge) (n t : Element)
    (hdef : s.deferred = [⟨.block j, pos⟩]) (hfoc : s.focused = some (.block k))
    (hjk : j ≠ k) (hn : s.blocks[j]? = some n) (hce : n.contenteditable = some "true")
    (ht : s.blocks[k]? = some t) :
    (runDeferred P s).blocks =
      s.blocks.set k (if focusoutCallsHandler t then handleFocusOut P t else t) ∧
    (runDeferred P s).deferred = [] ∧
    (runDeferred P s).focused = some (.block j) := by
  have hfocusable : isFocusable n = true := by simp [isFocusable, hce]
  have hne : ¬ (some (NodeRef.block k) = some (NodeRef.block j)) := by
    intro h
    injection h with h
    injection h with h
    exact hjk h.symm
  obtain ⟨hb, hd, _⟩ := focusout_blocks P { s with deferred := [] } k t ht
  have hfe : focusElement P { s with deferred := [] } (.block j) =
      { focusout P { s with deferred := [] } k with focused := some (.block j) } := by
    unfold focusElement
    simp only [elementAt, hn, hfocusable, if_true, hfoc, hne, if_false]
  unfold runDeferred
  rw [hdef]
  simp only [List.foldl_cons, List.foldl_nil]
  unfold moveCursorNow
  simp only [hfe]
  cases (focusout P { s with deferred := [] } k).blocks[j]? with
  | none => exact ⟨hb, hd, rfl⟩
  | some editable =>
    cases pos with
    | first => exact ⟨hb, hd, rfl⟩
    | last => exact ⟨hb, hd, rfl⟩

/-- A timer callback that runs while no block has focus leaves the blocks as
they are. -/
theorem runDeferred_unfocused {α : Type} (P : Platform) (s : EditorState α) (d : Deferred)
    (hdef : s.deferred = [d]) (hfoc : s.focused = none) :
    (runDeferred P s).blocks = s.blocks := by
  have hfe : (focusElement P { s with deferred := [] } d.target).blocks = s.blocks := by
    unfold focusElement
    cases elementAt { s with deferred := [] } d.target with
    | none => rfl
    | some e =>
      simp only [hfoc]
      split
      · split <;> rfl
      · rfl
  unfold runDeferred
  rw [hdef]
  simp only [List.foldl_cons, List.foldl_nil]
  unfold moveCursorNow
  simp only
  cases hd : d.target with
  | block i =>
    rw [hd] at hfe
    simp only
    cases (focusElement P { s with deferred := [] } (.block i)).blocks[i]? with
    | none => exact hfe
    | some editable =>
      cases d.position with
      | first => exact hfe
      | last => exact hfe
  | container =>
    rw [hd] at hfe
    exact hfe
  | following i =>
    rw [hd] at hfe
    simp only
    cases (focusElement P { s with deferred := [] } (.following i)).following[i]? with
    | none => exact hfe
    | some x => exact hfe

/-- What `handleBackspaceKey` does on the focused block when its trimmed
markup is empty or the placeholder. -/
theorem handleBackspaceKey_removes {α : Type} (P : Platform) (s : EditorState α)
    (event : KeyEvent) (editable : Nat) (e : Element)
    (he : s.blocks[editable]? = some e) (hkey : event.key = "Backspace")
    (hc : trim (innerHTML e) = [] ∨ trim (innerHTML e) = [zwsp])
    (hfoc : s.focused = some (.block editable)) :
    ∃ s' d, handleBackspaceKey P s event editable = some (s', true) ∧
      s'.blocks = s.blocks.eraseIdx editable ∧
      s'.deferred = s.deferred ++ [d] ∧
      s'.focused = none := by
  unfold handleBackspaceKey
  rw [he]
  simp only [hkey, if_true, hc]
  cases findPreviousEditableDiv s.blocks editable with
  | some prev =>
    refine ⟨_, _, rfl, rfl, rfl, ?_⟩
    simp [hfoc, NodeRef.afterRemove]
  | none =>
    refine ⟨_, _, rfl, rfl, rfl, ?_⟩
    simp [createNewEditableDiv, hfoc, NodeRef.afterRemove]

/-- C4 (as amended). The block with the caret has focus and no caret placement
is pending.  `handleEnterKey` splits the block and schedules the focus move to
the new block; when that runs, the split block loses focus and the `focusout`
listener runs on it.  If the caret was at the end of the block (the
after-fragment serializes to the empty string), Backspace on the new block
(`handleBackspaceKey`) then removes the new block again: the document has its
original number of blocks, all other blocks unchanged, and the split block is
what the focus loss leaves of the original block: the same classes and
serialized content when its text does not parse as a rendered kind, the
rendered block otherwise.  If the trimmed serialized content of the new block is
neither empty nor the placeholder, Backspace on the new block is not
intercepted and the state keeps its two blocks: the blocks are never joined. -/
theorem C4_split_at_end_then_backspace {α : Type} (P : Platform) (s : EditorState α)
    (enter backspace : KeyEvent) (editable : Nat) (e : Element) (p : Point) (stop : Boundary)
    (he : s.blocks[editable]? = some e)
    (hsel : s.selection = some ⟨.inBlock editable p, stop⟩)
    (henter : enter.key = "Enter") (hback : backspace.key = "Backspace")
    (hfoc : s.focused = some (.block editable)) (hdef : s.deferred = [])
    (hplaceholder : serializeNodes (P.parseHTML [zwsp]) = [zwsp])
    (hcontent : serializeNodes (P.parseHTML (innerHTML e)) = innerHTML e) :
    ∃ s1,
      handleEnterKey P s enter editable = some (s1, true) ∧
      s1.blocks.length = s.blocks.length + 1 ∧
      (runDeferred P s1).blocks.length = s.blocks.length + 1 ∧
      (runDeferred P s1).focused = some (.block (editable + 1)) ∧
      (fragmentToHTML (cloneAfter e.childNodes p.path p.offset) = [] →
        ∃ s2 e',
          handleBackspaceKey P (runDeferred P s1) backspace (editable + 1) = some (s2, true) ∧
          s2.blocks = s.blocks.set editable e' ∧
          (runDeferred P s2).blocks = s.blocks.set editable e' ∧
          (runDeferred P s2).blocks.length = s.blocks.length ∧
          e' = (if focusoutCallsHandler e then handleFocusOut P (setInnerHTML P e (innerHTML e))
                else setInnerHTML P e (innerHTML e)) ∧
          (parseSpecOrder (textContent (setInnerHTML P e (innerHTML e))) = none →
            innerHTML e' = innerHTML e ∧ e'.classList = e.classList)) ∧
      (trim (innerHTML (newEditableDiv P
            (fragmentToHTML (cloneAfter e.childNodes p.path p.offset)))) ≠ [] →
        trim (innerHTML (newEditableDiv P
            (fragmentToHTML (cloneAfter e.childNodes p.path p.offset)))) ≠ [zwsp] →
        handleBackspaceKey P (runDeferred P s1) backspace (editable + 1) =
          some (runDeferred P s1, false)) := by
  obtain ⟨s1, h1, h2, h3, h4⟩ := handleEnterKey_state P s enter editable e p stop he henter hsel
  have hlt : editable < s.blocks.length := by
    rcases Nat.lt_or_ge editable s.blocks.length with h | h
    · exact h
    · rw [List.getElem?_eq_none h] at he; cases he
  have hs1k : s1.blocks[editable]? =
      some (setInnerHTML P e (fragmentToHTML (cloneBefore e.childNodes p.path p.offset))) := by
    rw [h2]; exact getElem?_before_insert _ _ _ _ hlt
  have hs1n : s1.blocks[editable + 1]? =
      some (newEditableDiv P (fragmentToHTML (cloneAfter e.childNodes p.path p.offset))) := by
    rw [h2]; exact getElem?_after_insert _ _ _ _ hlt
  have hdef1 : s1.deferred = [⟨.block (editable + 1), .first⟩] := by
    rw [h3, hdef]; rfl
  have hfoc1 : s1.focused = some (.block editable) := by
    rw [h4, hfoc]
    simp [NodeRef.afterInsert]
  obtain ⟨hb, hd, hf⟩ := runDeferred_to_block P s1 (editable + 1) editable .first _ _
    hdef1 hfoc1 (by omega) hs1n rfl hs1k
  rw [h2, set_before_insert _ _ _ _ _ hlt] at hb
  have hnew : (runDeferred P s1).blocks[editable + 1]? =
      some (newEditableDiv P (fragmentToHTML (cloneAfter e.childNodes p.path p.offset))) := by
    rw [hb]; exact getElem?_after_insert _ _ _ _ hlt
  have hlen : ∀ (a b : Element),
      (s.blocks.take editable ++ a :: b :: s.blocks.drop (editable + 1)).length =
        s.blocks.length + 1 := by
    intro a b
    simp only [List.length_append, List.length_cons, List.length_take, List.length_drop]
    omega
  refine ⟨s1, h1, ?_, ?_, hf, ?_, ?_⟩
  · rw [h2]; exact hlen _ _
  · rw [hb]; exact hlen _ _
  · intro hafter
    have hz : trim (innerHTML
        (newEditableDiv P (fragmentToHTML (cloneAfter e.childNodes p.path p.offset)))) =
        [zwsp] := by
      rw [hafter]
      have : innerHTML (newEditableDiv P []) = [zwsp] := by
        simp [innerHTML, newEditableDiv, setInnerHTML, hplaceholder]
      rw [this]
      decide
    obtain ⟨s2, d, h5, h6, h7, h8⟩ := handleBackspaceKey_removes P (runDeferred P s1) backspace
      (editable + 1) _ hnew hback (Or.inr hz) hf
    have hbefore := markup_before_of_after_empty e.childNodes p hafter
    have hs2 : s2.blocks = s.blocks.set editable
        (if focusoutCallsHandler e then handleFocusOut P (setInnerHTML P e (innerHTML e))
         else setInnerHTML P e (innerHTML e)) := by
      rw [h6, hb, eraseIdx_after_insert _ _ _ _ hlt, hbefore]
      rfl
    have hrun : (runDeferred P s2).blocks = s2.blocks :=
      runDeferred_unfocused P s2 d (by rw [h7, hd]; rfl) h8
    refine ⟨s2, _, h5, hs2, by rw [hrun, hs2], ?_, rfl, ?_⟩
    · rw [hrun, hs2, List.length_set]
    · intro hp
      have hfo : handleFocusOut P (setInnerHTML P e (innerHTML e)) =
          setInnerHTML P e (innerHTML e) := by
        rw [handleFocusOut_eq_parseSpecOrder, hp]
      rw [hfo, ite_self]
      exact ⟨hcontent, rfl⟩
  · intro hn1 hn2
    unfold handleBackspaceKey
    rw [hnew]
    simp only [hback, if_true, hn1, hn2, or_self, if_false]

/-- Witness of C4 (as amended): splitting `ab` at its end and pressing
Backspace on the new block leaves the one block `ab`; splitting `ab` after
`a`, Backspace on the new block `b` is not intercepted. -/
theorem C4_split_at_end_then_backspace_witness :
    (∃ s1 s2,
      handleEnterKey browser (docState [paragraph [.text "ab".toList]] 0 ⟨[0], 2⟩)
        (plainKey "Enter" 0) 0 = some (s1, true) ∧
      (runDeferred browser s1).focused = some (.block 1) ∧
      handleBackspaceKey browser (runDeferred browser s1) (plainKey "Backspace" 1) 1 =
        some (s2, true) ∧
      (runDeferred browser s2).blocks.length = 1 ∧
      (runDeferred browser s2).blocks.map (fun b => (b.classList, innerHTML b)) =
        [(["editable"], "ab".toList)]) ∧
    (∃ s1,
      handleEnterKey browser (docState [paragraph [.text "ab".toList]] 0 ⟨[0], 1⟩)
        (plainKey "Enter" 0) 0 = some (s1, true) ∧
      (runDeferred browser s1).blocks.length = 2 ∧
      handleBackspaceKey browser (runDeferred browser s1) (plainKey "Backspace" 1) 1 =
        some (runDeferred browser s1, false)) := by
  constructor
  · obtain ⟨s1, h1, _, _, hf, hA, _⟩ :=
      C4_split_at_end_then_backspace browser
        (docState [paragraph [.text "ab".toList]] 0 ⟨[0], 2⟩)
        (plainKey "Enter" 0) (plainKey "Backspace" 1) 0 (paragraph [.text "ab".toList])
        ⟨[0], 2⟩ _ rfl rfl rfl rfl rfl rfl (by decide) (by decide)
    obtain ⟨s2, e', h2, _, h3, h4, _, h5⟩ := hA (by decide)
    obtain ⟨h6, h7⟩ := h5 (by decide)
    refine ⟨s1, s2, h1, hf, h2, h4, ?_⟩
    rw [h3]
    show [(e'.classList, innerHTML e')] = _
    rw [h6, h7]
    rfl
  · obtain ⟨s1, h1, _, hl, _, _, hB⟩ :=
      C4_split_at_end_then_backspace browser
        (docState [paragraph [.text "ab".toList]] 0 ⟨[0], 1⟩)
        (plainKey "Enter" 0) (plainKey "Backspace" 1) 0 (paragraph [.text "ab".toList])
        ⟨[0], 1⟩ _ rfl rfl rfl rfl rfl rfl (by decide) (by decide)
    exact ⟨s1, h1, hl, hB (by decide) (by decide)⟩

/-- Counterexample to C4: splitting `ab` after `a` and pressing Backspace on
the new block `b` leaves two blocks, `a` and `b`; Backspace is not
intercepted.  And splitting `# Title` at its end and pressing Backspace on the
new block leaves one block, but the focus move to the new block made the split
block lose focus: it is now the rendered heading, with serialized content
`<h1>Title</h1>`. -/
theorem C4_counterexample :
    ((handleEnterKey browser (docState [paragraph [.text "ab".toList]] 0 ⟨[0], 1⟩)
        (plainKey "Enter" 0) 0).bind
      (fun r => handleBackspaceKey browser (runDeferred browser r.1)
        (plainKey "Backspace" 1) 1)).map
      (fun r => ((runDeferred browser r.1).blocks.map innerHTML, r.2)) =
      some (["a".toList, "b".toList], false) ∧
    ((handleEnterKey browser (docState [paragraph [.text "# Title".toList]] 0 ⟨[0], 7⟩)
        (plainKey "Enter" 0) 0).bind
      (fun r => handleBackspaceKey browser (runDeferred browser r.1)
        (plainKey "Backspace" 1) 1)).map
      (fun r => ((runDeferred browser r.1).blocks.map
        (fun b => (b.classList, innerHTML b)), r.2)) =
      some ([(["editable", "heading1"], "<h1>Title</h1>".toList)], true) := by
  refine ⟨by decide, by decide⟩

end Cocomu
